import Mathlib

/-!
Verification development for the definition-collection core of the
rust-analyzer name-resolution subsystem (crates/ra_hir_def).  The Rust source
is shallowly embedded: hash maps become functions into `Option`, arena indices
become `Nat`, and a Rust `panic!` becomes the `none` of an `Option`-valued
result.  Each definition's doc comment names the Rust item it embeds.
-/

set_option autoImplicit false
set_option maxRecDepth 8000

namespace RaNameRes

/-- The three independent namespace slots a name can denote (per_ns.rs
`PerNs`; spec section 3): a type-namespace entity, a value-namespace entity and
a macro-namespace entity, each optional.  Entities are represented by `Nat`
identifiers. -/
structure PerNs where
  types : Option Nat
  values : Option Nat
  macros : Option Nat
deriving DecidableEq

/-- `PerNs::none()`. -/
def PerNs.noneNs : PerNs := ⟨none, none, none⟩

/-- `PerNs::is_none()`: no namespace is occupied. -/
def PerNs.isNone (p : PerNs) : Bool :=
  p.types.isNone && p.values.isNone && p.macros.isNone

/-- `PerNs::types(t)`: a type-namespace-only resolution. -/
def PerNs.typesOnly (t : Nat) : PerNs := ⟨some t, none, none⟩

/-- `PerNs::macros(m)`: a macro-namespace-only resolution. -/
def PerNs.macrosOnly (m : Nat) : PerNs := ⟨none, none, some m⟩

/-- A scope entry (nameres `Resolution`): the per-namespace definition plus
the id of the `use` item it arrived through, if any.  The shape is fixed by
its uses in collector.rs (fields `def` and `import`, `or_default()` meaning
an all-empty entry). -/
structure Resolution where
  def_ : PerNs
  importId : Option Nat
deriving DecidableEq

/-- The all-empty entry `Resolution::default()` produced by `or_default()`. -/
def emptyResolution : Resolution := ⟨PerNs.noneNs, none⟩

/-- Rust `Option::or`. -/
def optOr (a b : Option Nat) : Option Nat :=
  match a with
  | some x => some x
  | none => b

/-- One module's mutable scope (nameres `ModuleScope`): `items` maps a name to
its `Resolution`, `legacy_macros` maps a name to a textual-scope macro
definition.  Names and macro definitions are `Nat` identifiers. -/
structure ModuleScope where
  items : Nat → Option Resolution
  legacyMacros : Nat → Option Nat

/-- The slice of `DefCollector`/`CrateDefMap` state that the scope-updating
operations touch: the module arena (indexed by `LocalModuleId`, here `Nat`),
the `glob_imports` table mapping a globbed module to the list of
`(importing module, import id)` pairs recorded for it, and the crate root
module id. -/
structure CollectorState where
  modules : Nat → ModuleScope
  globImports : Nat → List (Nat × Nat)
  root : Nat

/-- Look a name up in an `items` map, `entry(name).or_default()` style. -/
def entryOrDefault (items : Nat → Option Resolution) (name : Nat) : Resolution :=
  (items name).getD emptyResolution

/-- Write one entry back into an `items` map. -/
def insertItem (items : Nat → Option Resolution) (name : Nat) (r : Resolution) :
    Nat → Option Resolution :=
  fun n => if n = name then some r else items n

/-- The first conditional of the `for (name, res) in resolutions` loop body
of `DefCollector::update_recursive` (collector.rs lines 474-478): an empty
type-namespace slot of `existing` is filled from `res` when `res` has one,
setting the changed flag and the entry's import id to `import.or(res.import)`;
an occupied slot is left untouched. -/
def mergeTypes (imp : Option Nat) (e res : Resolution) : Resolution × Bool :=
  if e.def_.types.isNone && res.def_.types.isSome then
    (⟨⟨res.def_.types, e.def_.values, e.def_.macros⟩, optOr imp res.importId⟩, true)
  else (e, false)

/-- The second conditional of the loop body (collector.rs lines 479-483), for
the value namespace. -/
def mergeValues (imp : Option Nat) (e res : Resolution) : Resolution × Bool :=
  if e.def_.values.isNone && res.def_.values.isSome then
    (⟨⟨e.def_.types, res.def_.values, e.def_.macros⟩, optOr imp res.importId⟩, true)
  else (e, false)

/-- The third conditional of the loop body (collector.rs lines 484-488), for
the macro namespace. -/
def mergeMacros (imp : Option Nat) (e res : Resolution) : Resolution × Bool :=
  if e.def_.macros.isNone && res.def_.macros.isSome then
    (⟨⟨e.def_.types, e.def_.values, res.def_.macros⟩, optOr imp res.importId⟩, true)
  else (e, false)

/-- The final conditional of the loop body (collector.rs lines 490-496): an
entry that is still empty in every namespace, with no import id, adopts
`res`'s import id (without marking the scope changed). -/
def adoptImportId (e res : Resolution) : Resolution :=
  if PerNs.isNone e.def_ && PerNs.isNone res.def_ &&
      e.importId.isNone && res.importId.isSome then
    ⟨e.def_, res.importId⟩
  else e

/-- The per-name body of the `for (name, res) in resolutions` loop of
`DefCollector::update_recursive` (collector.rs lines 471-497): the three
namespace merges in source order, then the import-id adoption.  Returns the
merged entry and whether any namespace slot was written. -/
def mergeEntry (imp : Option Nat) (existing res : Resolution) : Resolution × Bool :=
  let p1 := mergeTypes imp existing res
  let p2 := mergeValues imp p1.1 res
  let p3 := mergeMacros imp p2.1 res
  (adoptImportId p3.1 res, p1.2 || p2.2 || p3.2)

/-- The whole `for (name, res) in resolutions` loop of `update_recursive`:
merge each pair of the batch into the `items` map in order, accumulating the
changed flag. -/
def applyBatch (imp : Option Nat) :
    List (Nat × Resolution) → (Nat → Option Resolution) → Bool →
    (Nat → Option Resolution) × Bool
  | [], items, changed => (items, changed)
  | (name, res) :: rest, items, changed =>
    let p := mergeEntry imp (entryOrDefault items name) res
    applyBatch imp rest (insertItem items name p.1) (changed || p.2)

/-- Replace one module's `items` map inside the collector state. -/
def setItems (st : CollectorState) (moduleId : Nat)
    (items : Nat → Option Resolution) : CollectorState :=
  { st with
    modules := fun m =>
      if m = moduleId then { st.modules m with items := items } else st.modules m }

/-- The `for (glob_importing_module, glob_import) in glob_imports` replay loop
at the end of `update_recursive` (collector.rs lines 509-512), abstracted over
the recursive call `f`; `none` (a panic below) aborts the whole loop. -/
def runGlobs (f : CollectorState → Nat → Nat → Option CollectorState) :
    CollectorState → List (Nat × Nat) → Option CollectorState
  | st, [] => some st
  | st, (globModule, globImport) :: rest =>
    match f st globModule globImport with
    | none => none
    | some st2 => runGlobs f st2 rest

/-- `DefCollector::update_recursive` (collector.rs lines 458-513).  The Rust
recursion carries a `depth` that starts at 0 and panics
("infinite recursion in glob imports!") once `depth > 100`; here the fuel is
`101 - depth`, so fuel 0 is exactly the guard tripping and `none` models the
panic.  The batch is merged into the target module's scope; when nothing
changed the recursion stops; otherwise the same batch is replayed into every
module holding a recorded glob edge onto this one. -/
def update_recursive :
    Nat → CollectorState → Nat → Option Nat → List (Nat × Resolution) →
    Option CollectorState
  | 0, _, _, _, _ => none
  | fuel + 1, st, moduleId, imp, resolutions =>
    let p := applyBatch imp resolutions (st.modules moduleId).items false
    let st1 := setItems st moduleId p.1
    if p.2 then
      runGlobs (fun s gm gi => update_recursive fuel s gm (some gi) resolutions)
        st1 (st.globImports moduleId)
    else some st1

/-- `DefCollector::update` (collector.rs lines 449-456): enter the recursion
at depth 0, i.e. with fuel 101. -/
def update (st : CollectorState) (moduleId : Nat) (imp : Option Nat)
    (resolutions : List (Nat × Resolution)) : Option CollectorState :=
  update_recursive 101 st moduleId imp resolutions

/-- A sequence of `update` calls, as a collection pass performs them: each
element is a target module, the import id and the batch.  A `none` anywhere
(the depth guard tripping) aborts the sequence. -/
def runUpdates : List (Nat × Option Nat × List (Nat × Resolution)) →
    CollectorState → Option CollectorState
  | [], st => some st
  | (m, imp, batch) :: rest, st =>
    match update st m imp batch with
    | none => none
    | some st2 => runUpdates rest st2

/-- A scope with nothing in it. -/
def emptyScope : ModuleScope := ⟨fun _ => none, fun _ => none⟩

/-- A collector state with empty scopes, no glob edges and root module 0. -/
def stEmpty : CollectorState := ⟨fun _ => emptyScope, fun _ => [], 0⟩

/-- A collector state in which module 0 already resolves name 5 to type
entity 9, and no glob edges exist. -/
def stPre : CollectorState :=
  { stEmpty with
    modules := fun m =>
      if m = 0 then
        { emptyScope with
          items := fun n => if n = 5 then some ⟨⟨some 9, none, none⟩, none⟩ else none }
      else emptyScope }

/-- A collector state in which module 1 has recorded a glob edge onto module
0 under import id 7 (module 1 glob-imports module 0); all scopes empty. -/
def stGlob : CollectorState :=
  { stEmpty with globImports := fun m => if m = 0 then [(1, 7)] else [] }

/-- A collector state holding a glob chain of 102 modules: module `i + 1`
glob-imports module `i` for every `i < 101`; all scopes empty. -/
def chainState : CollectorState :=
  { stEmpty with globImports := fun i => if i < 101 then [(i + 1, 0)] else [] }

/-- A collector state where module 1 glob-imports module 0 and module 2
glob-imports module 1 (a two-step glob chain); all scopes empty. -/
def stChain3 : CollectorState :=
  { stEmpty with
    globImports := fun m => if m = 0 then [(1, 7)] else if m = 1 then [(2, 8)] else [] }

/-- `globChain st b ms`: starting from module `b`, the list `ms` follows
recorded glob edges: its first element holds a recorded glob edge onto `b`
(it glob-imports `b`), and each later element holds one onto its
predecessor. -/
def globChain (st : CollectorState) : Nat → List Nat → Prop
  | _, [] => True
  | b, a :: rest => (∃ gi, (a, gi) ∈ st.globImports b) ∧ globChain st a rest

/-- The type-namespace slot a name holds in an `items` map. -/
def typesAt (items : Nat → Option Resolution) (name : Nat) : Option Nat :=
  match items name with
  | some r => r.def_.types
  | none => none

/-- The value-namespace slot a name holds in an `items` map. -/
def valuesAt (items : Nat → Option Resolution) (name : Nat) : Option Nat :=
  match items name with
  | some r => r.def_.values
  | none => none

/-- The macro-namespace slot a name holds in an `items` map. -/
def macrosAt (items : Nat → Option Resolution) (name : Nat) : Option Nat :=
  match items name with
  | some r => r.def_.macros
  | none => none

/-- The type-namespace slot of `name` in module `m` of the collector state. -/
def typesSlot (st : CollectorState) (m name : Nat) : Option Nat :=
  typesAt (st.modules m).items name

/-- The value-namespace slot of `name` in module `m`. -/
def valuesSlot (st : CollectorState) (m name : Nat) : Option Nat :=
  valuesAt (st.modules m).items name

/-- The macro-namespace slot of `name` in module `m`. -/
def macrosSlot (st : CollectorState) (m name : Nat) : Option Nat :=
  macrosAt (st.modules m).items name

/-- The glob-edge bookkeeping of `DefCollector::record_resolved_import` for a
same-crate module glob (collector.rs lines 395-399): after the initial copy,
the pair `(importing module, import id)` is pushed onto
`glob_imports[target]` unless an equal pair is already recorded. -/
def recordGlobEdge (st : CollectorState) (targetModule moduleId importId : Nat) :
    CollectorState :=
  let glob := st.globImports targetModule
  if glob.any (fun it => it = (moduleId, importId)) then st
  else
    { st with
      globImports := fun m =>
        if m = targetModule then glob ++ [(moduleId, importId)]
        else st.globImports m }

/-- `ReachedFixedPoint` (path_resolution.rs, as used by collector.rs):
whether a pass made no further progress. -/
inductive ReachedFixedPoint
  | Yes
  | No
deriving DecidableEq

/-- The fixed-point loop of `DefCollector::collect` (collector.rs lines
140-154).  Each iteration resolves imports, then attempts the pending macros;
`ReachedFixedPoint.Yes` breaks out, `No` (macro progress was made) increments
the counter `i`, and `i == 1000` breaks with the "name resolution is stuck"
error.  Here `gas = 999 - (i - 1)` counts the `No` iterations still allowed
after the current one, so the Bool of the result is true exactly when the
1000-iteration cap ended the loop (the error was logged).  The import and
macro passes are the loop's collaborators, passed in as functions on the
collector state `St`. -/
def collectLoop {St : Type} (ri : St → St) (rm : St → St × ReachedFixedPoint) :
    Nat → St → St × Bool
  | 0, s =>
    match rm (ri s) with
    | (s2, ReachedFixedPoint.Yes) => (s2, false)
    | (s2, ReachedFixedPoint.No) => (s2, true)
  | gas + 1, s =>
    match rm (ri s) with
    | (s2, ReachedFixedPoint.Yes) => (s2, false)
    | (s2, ReachedFixedPoint.No) => collectLoop ri rm gas s2

/-- The loop of `DefCollector::collect` entered with `i = 0`: at most 1000
`No` iterations may run. -/
def collectFixedPoint {St : Type} (ri : St → St)
    (rm : St → St × ReachedFixedPoint) (s : St) : St × Bool :=
  collectLoop ri rm 999 s

/-- One full body step of the loop: imports pass then macros pass, keeping
the state component. -/
def loopStep {St : Type} (ri : St → St) (rm : St → St × ReachedFixedPoint)
    (s : St) : St :=
  (rm (ri s)).1

/-- `PartialResolvedImport` (collector.rs lines 72-80). -/
inductive PartialResolvedImport
  | Unresolved
  | Indeterminate (ns : PerNs)
  | Resolved (ns : PerNs)
deriving DecidableEq

/-- What `CrateDefMap::resolve_path_fp_with_macro` reports back to
`resolve_import` (path_resolution.rs `ResolvePathResult`, used at collector.rs
lines 323-340): the per-namespace resolution, whether a fixed point was
reached, and the crate the path resolved into, if known. -/
structure ResolvePathResult where
  resolvedDef : PerNs
  reachedFixedpoint : ReachedFixedPoint
  krate : Option Nat
deriving DecidableEq

/-- The fields of `raw::ImportData` that `resolve_import` inspects for the
claims below: the extern-crate flag and, for the extern-crate case, the
single-segment path name (`path.as_ident()`). -/
structure ImportData where
  pathIdent : Nat
  isExternCrate : Bool
deriving DecidableEq

/-- Modelled from the spec: `CrateDefMap::resolve_name_in_extern_prelude`
lives in nameres/mod.rs, which is not among the provided sources.  Per spec
section 4.2 ("extern crate paths are single-segment names looked up directly
in the extern prelude") and the glossary (the extern prelude binds
dependency-crate names to their root modules, type-namespace entities), the
lookup yields a type-namespace-only resolution when the name is bound and the
empty resolution otherwise. -/
def resolve_name_in_extern_prelude (externPrelude : Nat → Option Nat)
    (name : Nat) : PerNs :=
  match externPrelude name with
  | some d => PerNs.typesOnly d
  | none => PerNs.noneNs

/-- `DefCollector::resolve_import` (collector.rs lines 308-352).  An
extern-crate import is looked up directly in the extern prelude and is always
`Resolved`.  Otherwise the path resolver's report `res` decides: no fixed
point reached means `Unresolved`; a path that resolved into a crate different
from the one being collected is `Resolved`; in-crate, `Resolved` needs all
three namespaces settled and anything less is `Indeterminate`.  The path
resolver is a collaborator; its report is passed in as `res`. -/
def resolve_import (selfKrate : Nat) (externPrelude : Nat → Option Nat)
    (res : ResolvePathResult) (imp : ImportData) : PartialResolvedImport :=
  if imp.isExternCrate then
    PartialResolvedImport.Resolved
      (resolve_name_in_extern_prelude externPrelude imp.pathIdent)
  else
    let d := res.resolvedDef
    if res.reachedFixedpoint = ReachedFixedPoint.No then
      PartialResolvedImport.Unresolved
    else if (match res.krate with
             | some k => decide (k ≠ selfKrate)
             | none => false) then
      PartialResolvedImport.Resolved d
    else if d.types.isSome && d.values.isSome && d.macros.isSome then
      PartialResolvedImport.Resolved d
    else
      PartialResolvedImport.Indeterminate d

/-- An `ImportDirective` (collector.rs lines 92-98): the owning module, the
id and data of the import, and the current resolution status. -/
structure ImportDirective where
  moduleId : Nat
  importId : Nat
  importData : ImportData
  status : PartialResolvedImport
deriving DecidableEq

/-- The body of one pass of `DefCollector::resolve_imports` (collector.rs
lines 285-304): every queued directive is re-resolved; `Indeterminate` and
`Resolved` directives are recorded and moved to the resolved list,
`Unresolved` ones are queued again.  The call to `resolve_import` (whose
result depends on the evolving def map) is abstracted as `resolveF`; the
`record_resolved_import` side effect on the def map is not needed for the
directive bookkeeping stated below. -/
def resolveImportsPass (resolveF : ImportDirective → PartialResolvedImport) :
    List ImportDirective → List ImportDirective × List ImportDirective
  | [] => ([], [])
  | d :: rest =>
    let st := resolveF d
    let p := resolveImportsPass resolveF rest
    match st with
    | PartialResolvedImport.Unresolved =>
      ({ d with status := st } :: p.1, p.2)
    | _ => (p.1, { d with status := st } :: p.2)

/-- The `while self.unresolved_imports.len() < n_previous_unresolved` loop of
`DefCollector::resolve_imports` (collector.rs lines 280-306): repeat passes
while the unresolved queue keeps shrinking. -/
def resolveImportsGo (resolveF : ImportDirective → PartialResolvedImport)
    (nPrev : Nat) (unresolved resolved : List ImportDirective) :
    List ImportDirective × List ImportDirective :=
  if h : unresolved.length < nPrev then
    let p := resolveImportsPass resolveF unresolved
    resolveImportsGo resolveF unresolved.length p.1 (resolved ++ p.2)
  else (unresolved, resolved)
termination_by nPrev
decreasing_by exact h

/-- `DefCollector::resolve_imports`, entered with
`n_previous_unresolved = len + 1` so the first pass always runs. -/
def resolve_imports (resolveF : ImportDirective → PartialResolvedImport)
    (unresolved resolved : List ImportDirective) :
    List ImportDirective × List ImportDirective :=
  resolveImportsGo resolveF (unresolved.length + 1) unresolved resolved

/-- The late re-check of `DefCollector::collect` (collector.rs lines
160-168): every directive of the resolved list whose status is
`Indeterminate` is cloned, downgraded to `Unresolved` and queued again;
`Resolved` directives are left alone. -/
def reopenIndeterminate (resolved : List ImportDirective) :
    List ImportDirective :=
  resolved.filterMap fun d =>
    match d.status with
    | PartialResolvedImport.Indeterminate _ =>
      some { d with status := PartialResolvedImport.Unresolved }
    | _ => none

/-- `DefCollector::define_legacy_macro` (collector.rs lines 233-236): insert
into the module's `legacy_macros` map, always shadowing. -/
def defineLegacyMacro (st : CollectorState) (moduleId name macroId : Nat) :
    CollectorState :=
  { st with
    modules := fun m =>
      if m = moduleId then
        { st.modules m with
          legacyMacros := fun n =>
            if n = name then some macroId else (st.modules m).legacyMacros n }
      else st.modules m }

/-- `DefCollector::define_macro` (collector.rs lines 204-224): the macro is
defined in the module's legacy textual scope, and when it carries
`#[macro_export]` it is additionally written, via `update`, into the crate
root module's scope as a macro-namespace resolution (which may glob-propagate
and can therefore hit `update_recursive`'s guard, hence the `Option`). -/
def defineMacro (st : CollectorState) (moduleId name macroId : Nat)
    (isExport : Bool) : Option CollectorState :=
  let st1 := defineLegacyMacro st moduleId name macroId
  if isExport then
    update st1 st1.root none [(name, ⟨PerNs.macrosOnly macroId, none⟩)]
  else some st1

/-- One edge of the crate graph as `collect_defs` sees it: the dependency's
name and the id of the crate it points at. -/
structure Dependency where
  name : Nat
  crateId : Nat
deriving DecidableEq

/-- The extern-prelude seeding loop at the top of `collect_defs`
(collector.rs lines 36-52).  For each dependency, its name is bound in the
extern prelude to `ModuleId { krate: dep.crate_id, local_id: root }` (here the
pair of crate id and root module id, with `depRoot` giving each finalized
dependency def map's root); and when the dependency's def map carries a
prelude (`depPrelude`), it overwrites any previously seen prelude. -/
def seedExternPrelude (depRoot : Nat → Nat) (depPrelude : Nat → Option (Nat × Nat)) :
    List Dependency → (Nat → Option (Nat × Nat)) → Option (Nat × Nat) →
    (Nat → Option (Nat × Nat)) × Option (Nat × Nat)
  | [], ep, pre => (ep, pre)
  | dep :: rest, ep, pre =>
    let ep2 : Nat → Option (Nat × Nat) := fun n =>
      if n = dep.name then some (dep.crateId, depRoot dep.crateId) else ep n
    let pre2 := if (depPrelude dep.crateId).isSome then depPrelude dep.crateId else pre
    seedExternPrelude depRoot depPrelude rest ep2 pre2

/-- A hygiene table (hir_expand `Hygiene`): `Hygiene::new(db, file_id)` is a
pure query of the file identity, so it is modelled as a value tagged by that
file. -/
inductive Hygiene
  | fromFile (fileId : Nat)
deriving DecidableEq

/-- The `Expander` of body.rs (lines 23-28): the current file identity and
the hygiene table derived from it. -/
structure Expander where
  currentFileId : Nat
  hygiene : Hygiene
deriving DecidableEq

/-- `Expander::new` (body.rs lines 31-35): hygiene starts out derived from
the starting file. -/
def Expander.new (fileId : Nat) : Expander :=
  ⟨fileId, Hygiene.fromFile fileId⟩

/-- The expansion checkpoint `Mark` (body.rs lines 92-94): the file identity
in effect before entering the expansion. -/
structure Mark where
  fileId : Nat
deriving DecidableEq

/-- The state change of `Expander::enter_expand` (body.rs lines 37-68) on its
success path.  Resolving the call's path as a macro and parsing its expansion
are external collaborators; `expansionFile` is the expansion's file identity
when they succeed and `none` when any of them fails (the error path returns
`None` without touching the expander).  On success a `Mark` saving the
current file is returned and the expander moves to the expansion's file and
its hygiene. -/
def enter_expand (e : Expander) (expansionFile : Option Nat) :
    Option (Mark × Expander) :=
  match expansionFile with
  | none => none
  | some f => some (⟨e.currentFileId⟩, ⟨f, Hygiene.fromFile f⟩)

/-- `Expander::exit` (body.rs lines 70-74): the expander's file identity and
hygiene are restored from the mark, and `std::mem::forget(mark)` consumes the
mark so its drop assertion does not run. -/
def Expander.exit (_e : Expander) (mark : Mark) : Expander :=
  ⟨mark.fileId, Hygiene.fromFile mark.fileId⟩

/-- `impl Drop for Mark` (body.rs lines 96-102): a mark that is discarded
without `exit` panics ("dropped mark") unless a panic is already in flight;
the `none` result models the panic, `some ()` the silent drop during
unwinding. -/
def dropMark (panicking : Bool) (_mark : Mark) : Option Unit :=
  if panicking then some () else none

/-- Slot monotonicity between two collector states: every namespace slot that
is set keeps its value. -/
def slotsPreserved (st st2 : CollectorState) : Prop :=
  ∀ m name,
    (∀ v, typesSlot st m name = some v → typesSlot st2 m name = some v) ∧
    (∀ v, valuesSlot st m name = some v → valuesSlot st2 m name = some v) ∧
    (∀ v, macrosSlot st m name = some v → macrosSlot st2 m name = some v)

/-- Every newly set namespace slot of `st2` traces back to a resolution of
`batch` carrying that namespace. -/
def slotsFromBatch (batch : List (Nat × Resolution)) (st st2 : CollectorState) : Prop :=
  ∀ m name,
    (∀ v, typesSlot st2 m name = some v →
      typesSlot st m name = some v ∨ ∃ r, (name, r) ∈ batch ∧ r.def_.types = some v) ∧
    (∀ v, valuesSlot st2 m name = some v →
      valuesSlot st m name = some v ∨ ∃ r, (name, r) ∈ batch ∧ r.def_.values = some v) ∧
    (∀ v, macrosSlot st2 m name = some v →
      macrosSlot st m name = some v ∨ ∃ r, (name, r) ∈ batch ∧ r.def_.macros = some v)

theorem slotsPreserved_refl (st : CollectorState) : slotsPreserved st st := by
  intro m name
  exact ⟨fun _ h => h, fun _ h => h, fun _ h => h⟩

theorem slotsPreserved_trans {st1 st2 st3 : CollectorState}
    (h12 : slotsPreserved st1 st2) (h23 : slotsPreserved st2 st3) :
    slotsPreserved st1 st3 := by
  intro m name
  obtain ⟨t12, v12, m12⟩ := h12 m name
  obtain ⟨t23, v23, m23⟩ := h23 m name
  exact ⟨fun v h => t23 v (t12 v h), fun v h => v23 v (v12 v h),
    fun v h => m23 v (m12 v h)⟩

theorem mergeTypes_def_types (imp : Option Nat) (e r : Resolution) :
    (mergeTypes imp e r).1.def_.types =
      if e.def_.types.isNone && r.def_.types.isSome then r.def_.types
      else e.def_.types := by
  unfold mergeTypes
  split <;> rfl

theorem mergeTypes_def_values (imp : Option Nat) (e r : Resolution) :
    (mergeTypes imp e r).1.def_.values = e.def_.values := by
  unfold mergeTypes
  split <;> rfl

theorem mergeTypes_def_macros (imp : Option Nat) (e r : Resolution) :
    (mergeTypes imp e r).1.def_.macros = e.def_.macros := by
  unfold mergeTypes
  split <;> rfl

theorem mergeValues_def_values (imp : Option Nat) (e r : Resolution) :
    (mergeValues imp e r).1.def_.values =
      if e.def_.values.isNone && r.def_.values.isSome then r.def_.values
      else e.def_.values := by
  unfold mergeValues
  split <;> rfl

theorem mergeValues_def_types (imp : Option Nat) (e r : Resolution) :
    (mergeValues imp e r).1.def_.types = e.def_.types := by
  unfold mergeValues
  split <;> rfl

theorem mergeValues_def_macros (imp : Option Nat) (e r : Resolution) :
    (mergeValues imp e r).1.def_.macros = e.def_.macros := by
  unfold mergeValues
  split <;> rfl

theorem mergeMacros_def_macros (imp : Option Nat) (e r : Resolution) :
    (mergeMacros imp e r).1.def_.macros =
      if e.def_.macros.isNone && r.def_.macros.isSome then r.def_.macros
      else e.def_.macros := by
  unfold mergeMacros
  split <;> rfl

theorem mergeMacros_def_types (imp : Option Nat) (e r : Resolution) :
    (mergeMacros imp e r).1.def_.types = e.def_.types := by
  unfold mergeMacros
  split <;> rfl

theorem mergeMacros_def_values (imp : Option Nat) (e r : Resolution) :
    (mergeMacros imp e r).1.def_.values = e.def_.values := by
  unfold mergeMacros
  split <;> rfl

theorem adoptImportId_def (e r : Resolution) :
    (adoptImportId e r).def_ = e.def_ := by
  unfold adoptImportId
  split <;> rfl

theorem mergeEntry_def_types (imp : Option Nat) (e r : Resolution) :
    (mergeEntry imp e r).1.def_.types =
      if e.def_.types.isNone && r.def_.types.isSome then r.def_.types
      else e.def_.types := by
  show (adoptImportId (mergeMacros imp (mergeValues imp (mergeTypes imp e r).1 r).1 r).1
      r).def_.types = _
  rw [adoptImportId_def, mergeMacros_def_types, mergeValues_def_types,
    mergeTypes_def_types]

theorem mergeEntry_def_values (imp : Option Nat) (e r : Resolution) :
    (mergeEntry imp e r).1.def_.values =
      if e.def_.values.isNone && r.def_.values.isSome then r.def_.values
      else e.def_.values := by
  show (adoptImportId (mergeMacros imp (mergeValues imp (mergeTypes imp e r).1 r).1 r).1
      r).def_.values = _
  rw [adoptImportId_def, mergeMacros_def_values, mergeValues_def_values,
    mergeTypes_def_values]

theorem mergeEntry_def_macros (imp : Option Nat) (e r : Resolution) :
    (mergeEntry imp e r).1.def_.macros =
      if e.def_.macros.isNone && r.def_.macros.isSome then r.def_.macros
      else e.def_.macros := by
  show (adoptImportId (mergeMacros imp (mergeValues imp (mergeTypes imp e r).1 r).1 r).1
      r).def_.macros = _
  rw [adoptImportId_def, mergeMacros_def_macros, mergeValues_def_macros,
    mergeTypes_def_macros]

theorem mergeEntry_changed_types (imp : Option Nat) (e r : Resolution) (v : Nat)
    (h1 : e.def_.types = none) (h2 : r.def_.types = some v) :
    (mergeEntry imp e r).2 = true := by
  show ((mergeTypes imp e r).2 || _ || _) = true
  have ht : (mergeTypes imp e r).2 = true := by
    unfold mergeTypes
    simp [h1, h2]
  simp [ht]

theorem mergeEntry_changed_macros (imp : Option Nat) (e r : Resolution) (v : Nat)
    (h1 : e.def_.macros = none) (h2 : r.def_.macros = some v) :
    (mergeEntry imp e r).2 = true := by
  show (_ || _ || (mergeMacros imp (mergeValues imp (mergeTypes imp e r).1 r).1 r).2) = true
  have hm : (mergeMacros imp (mergeValues imp (mergeTypes imp e r).1 r).1 r).2 = true := by
    have h1b : (mergeValues imp (mergeTypes imp e r).1 r).1.def_.macros = none := by
      rw [mergeValues_def_macros, mergeTypes_def_macros, h1]
    unfold mergeMacros
    simp [h1b, h2]
  simp [hm]

theorem typesAt_insertItem (items : Nat → Option Resolution) (n : Nat)
    (r : Resolution) (name : Nat) :
    typesAt (insertItem items n r) name =
      if name = n then r.def_.types else typesAt items name := by
  by_cases h : name = n <;> simp [typesAt, insertItem, h]

theorem valuesAt_insertItem (items : Nat → Option Resolution) (n : Nat)
    (r : Resolution) (name : Nat) :
    valuesAt (insertItem items n r) name =
      if name = n then r.def_.values else valuesAt items name := by
  by_cases h : name = n <;> simp [valuesAt, insertItem, h]

theorem macrosAt_insertItem (items : Nat → Option Resolution) (n : Nat)
    (r : Resolution) (name : Nat) :
    macrosAt (insertItem items n r) name =
      if name = n then r.def_.macros else macrosAt items name := by
  by_cases h : name = n <;> simp [macrosAt, insertItem, h]

theorem entryOrDefault_types (items : Nat → Option Resolution) (name : Nat) :
    (entryOrDefault items name).def_.types = typesAt items name := by
  unfold entryOrDefault typesAt
  cases items name <;> simp [emptyResolution, PerNs.noneNs]

theorem entryOrDefault_values (items : Nat → Option Resolution) (name : Nat) :
    (entryOrDefault items name).def_.values = valuesAt items name := by
  unfold entryOrDefault valuesAt
  cases items name <;> simp [emptyResolution, PerNs.noneNs]

theorem entryOrDefault_macros (items : Nat → Option Resolution) (name : Nat) :
    (entryOrDefault items name).def_.macros = macrosAt items name := by
  unfold entryOrDefault macrosAt
  cases items name <;> simp [emptyResolution, PerNs.noneNs]

theorem step_typesAt (imp : Option Nat) (items : Nat → Option Resolution)
    (n0 : Nat) (r0 : Resolution) (name : Nat) :
    typesAt (insertItem items n0 (mergeEntry imp (entryOrDefault items n0) r0).1) name =
      if name = n0 then
        (if (typesAt items n0).isNone && r0.def_.types.isSome then r0.def_.types
         else typesAt items n0)
      else typesAt items name := by
  rw [typesAt_insertItem, mergeEntry_def_types, entryOrDefault_types]

theorem step_valuesAt (imp : Option Nat) (items : Nat → Option Resolution)
    (n0 : Nat) (r0 : Resolution) (name : Nat) :
    valuesAt (insertItem items n0 (mergeEntry imp (entryOrDefault items n0) r0).1) name =
      if name = n0 then
        (if (valuesAt items n0).isNone && r0.def_.values.isSome then r0.def_.values
         else valuesAt items n0)
      else valuesAt items name := by
  rw [valuesAt_insertItem, mergeEntry_def_values, entryOrDefault_values]

theorem step_macrosAt (imp : Option Nat) (items : Nat → Option Resolution)
    (n0 : Nat) (r0 : Resolution) (name : Nat) :
    macrosAt (insertItem items n0 (mergeEntry imp (entryOrDefault items n0) r0).1) name =
      if name = n0 then
        (if (macrosAt items n0).isNone && r0.def_.macros.isSome then r0.def_.macros
         else macrosAt items n0)
      else macrosAt items name := by
  rw [macrosAt_insertItem, mergeEntry_def_macros, entryOrDefault_macros]

theorem applyBatch_typesAt_preserved (imp : Option Nat)
    (batch : List (Nat × Resolution)) :
    ∀ (items : Nat → Option Resolution) (c : Bool) (name : Nat) (v : Nat),
      typesAt items name = some v →
      typesAt (applyBatch imp batch items c).1 name = some v := by
  induction batch with
  | nil => intro items c name v h; simpa [applyBatch] using h
  | cons hd tl ih =>
    intro items c name v h
    obtain ⟨n0, r0⟩ := hd
    simp only [applyBatch]
    apply ih
    rw [step_typesAt]
    by_cases hn : name = n0
    · subst hn
      simp [h]
    · simp [hn, h]

theorem applyBatch_valuesAt_preserved (imp : Option Nat)
    (batch : List (Nat × Resolution)) :
    ∀ (items : Nat → Option Resolution) (c : Bool) (name : Nat) (v : Nat),
      valuesAt items name = some v →
      valuesAt (applyBatch imp batch items c).1 name = some v := by
  induction batch with
  | nil => intro items c name v h; simpa [applyBatch] using h
  | cons hd tl ih =>
    intro items c name v h
    obtain ⟨n0, r0⟩ := hd
    simp only [applyBatch]
    apply ih
    rw [step_valuesAt]
    by_cases hn : name = n0
    · subst hn
      simp [h]
    · simp [hn, h]

theorem applyBatch_macrosAt_preserved (imp : Option Nat)
    (batch : List (Nat × Resolution)) :
    ∀ (items : Nat → Option Resolution) (c : Bool) (name : Nat) (v : Nat),
      macrosAt items name = some v →
      macrosAt (applyBatch imp batch items c).1 name = some v := by
  induction batch with
  | nil => intro items c name v h; simpa [applyBatch] using h
  | cons hd tl ih =>
    intro items c name v h
    obtain ⟨n0, r0⟩ := hd
    simp only [applyBatch]
    apply ih
    rw [step_macrosAt]
    by_cases hn : name = n0
    · subst hn
      simp [h]
    · simp [hn, h]

theorem applyBatch_typesAt_origin (imp : Option Nat)
    (batch : List (Nat × Resolution)) :
    ∀ (items : Nat → Option Resolution) (c : Bool) (name : Nat) (v : Nat),
      typesAt (applyBatch imp batch items c).1 name = some v →
      typesAt items name = some v ∨
        ∃ r, (name, r) ∈ batch ∧ r.def_.types = some v := by
  induction batch with
  | nil => intro items c name v h; left; simpa [applyBatch] using h
  | cons hd tl ih =>
    intro items c name v h
    obtain ⟨n0, r0⟩ := hd
    simp only [applyBatch] at h
    rcases ih _ _ _ _ h with h1 | ⟨r, hr, hrt⟩
    · rw [step_typesAt] at h1
      by_cases hn : name = n0
      · subst hn
        simp only [if_pos rfl] at h1
        by_cases hc : (typesAt items name).isNone && r0.def_.types.isSome
        · rw [if_pos hc] at h1
          exact Or.inr ⟨r0, List.mem_cons_self _ _, h1⟩
        · rw [if_neg hc] at h1
          exact Or.inl h1
      · rw [if_neg hn] at h1
        exact Or.inl h1
    · exact Or.inr ⟨r, List.mem_cons_of_mem _ hr, hrt⟩

theorem applyBatch_valuesAt_origin (imp : Option Nat)
    (batch : List (Nat × Resolution)) :
    ∀ (items : Nat → Option Resolution) (c : Bool) (name : Nat) (v : Nat),
      valuesAt (applyBatch imp batch items c).1 name = some v →
      valuesAt items name = some v ∨
        ∃ r, (name, r) ∈ batch ∧ r.def_.values = some v := by
  induction batch with
  | nil => intro items c name v h; left; simpa [applyBatch] using h
  | cons hd tl ih =>
    intro items c name v h
    obtain ⟨n0, r0⟩ := hd
    simp only [applyBatch] at h
    rcases ih _ _ _ _ h with h1 | ⟨r, hr, hrt⟩
    · rw [step_valuesAt] at h1
      by_cases hn : name = n0
      · subst hn
        simp only [if_pos rfl] at h1
        by_cases hc : (valuesAt items name).isNone && r0.def_.values.isSome
        · rw [if_pos hc] at h1
          exact Or.inr ⟨r0, List.mem_cons_self _ _, h1⟩
        · rw [if_neg hc] at h1
          exact Or.inl h1
      · rw [if_neg hn] at h1
        exact Or.inl h1
    · exact Or.inr ⟨r, List.mem_cons_of_mem _ hr, hrt⟩

theorem applyBatch_macrosAt_origin (imp : Option Nat)
    (batch : List (Nat × Resolution)) :
    ∀ (items : Nat → Option Resolution) (c : Bool) (name : Nat) (v : Nat),
      macrosAt (applyBatch imp batch items c).1 name = some v →
      macrosAt items name = some v ∨
        ∃ r, (name, r) ∈ batch ∧ r.def_.macros = some v := by
  induction batch with
  | nil => intro items c name v h; left; simpa [applyBatch] using h
  | cons hd tl ih =>
    intro items c name v h
    obtain ⟨n0, r0⟩ := hd
    simp only [applyBatch] at h
    rcases ih _ _ _ _ h with h1 | ⟨r, hr, hrt⟩
    · rw [step_macrosAt] at h1
      by_cases hn : name = n0
      · subst hn
        simp only [if_pos rfl] at h1
        by_cases hc : (macrosAt items name).isNone && r0.def_.macros.isSome
        · rw [if_pos hc] at h1
          exact Or.inr ⟨r0, List.mem_cons_self _ _, h1⟩
        · rw [if_neg hc] at h1
          exact Or.inl h1
      · rw [if_neg hn] at h1
        exact Or.inl h1
    · exact Or.inr ⟨r, List.mem_cons_of_mem _ hr, hrt⟩

theorem applyBatch_typesAt_isSome (imp : Option Nat)
    (batch : List (Nat × Resolution)) :
    ∀ (items : Nat → Option Resolution) (c : Bool) (name : Nat) (r : Resolution)
      (v : Nat), (name, r) ∈ batch → r.def_.types = some v →
      (typesAt (applyBatch imp batch items c).1 name).isSome = true := by
  induction batch with
  | nil => intro items c name r v h; simp at h
  | cons hd tl ih =>
    intro items c name r v hmem hrt
    obtain ⟨n0, r0⟩ := hd
    simp only [applyBatch]
    rcases List.mem_cons.mp hmem with heq | htl
    · obtain ⟨hn, hr⟩ := Prod.mk.injEq .. ▸ heq
      subst hn
      subst hr
      have hstep : (typesAt (insertItem items name
          (mergeEntry imp (entryOrDefault items name) r).1) name).isSome = true := by
        rw [step_typesAt]
        simp only [if_pos rfl]
        by_cases hc : (typesAt items name).isNone && r.def_.types.isSome
        · rw [if_pos hc, hrt]
          rfl
        · rw [if_neg hc]
          rcases hni : typesAt items name with _ | w
          · exfalso
            apply hc
            simp [hni, hrt]
          · rfl
      obtain ⟨w, hw⟩ := Option.isSome_iff_exists.mp hstep
      have := applyBatch_typesAt_preserved imp tl
        (insertItem items name (mergeEntry imp (entryOrDefault items name) r).1)
        (c || (mergeEntry imp (entryOrDefault items name) r).2) name w hw
      simp [this]
    · exact ih _ _ _ _ _ htl hrt

theorem applyBatch_macrosAt_isSome (imp : Option Nat)
    (batch : List (Nat × Resolution)) :
    ∀ (items : Nat → Option Resolution) (c : Bool) (name : Nat) (r : Resolution)
      (v : Nat), (name, r) ∈ batch → r.def_.macros = some v →
      (macrosAt (applyBatch imp batch items c).1 name).isSome = true := by
  induction batch with
  | nil => intro items c name r v h; simp at h
  | cons hd tl ih =>
    intro items c name r v hmem hrt
    obtain ⟨n0, r0⟩ := hd
    simp only [applyBatch]
    rcases List.mem_cons.mp hmem with heq | htl
    · obtain ⟨hn, hr⟩ := Prod.mk.injEq .. ▸ heq
      subst hn
      subst hr
      have hstep : (macrosAt (insertItem items name
          (mergeEntry imp (entryOrDefault items name) r).1) name).isSome = true := by
        rw [step_macrosAt]
        simp only [if_pos rfl]
        by_cases hc : (macrosAt items name).isNone && r.def_.macros.isSome
        · rw [if_pos hc, hrt]
          rfl
        · rw [if_neg hc]
          rcases hni : macrosAt items name with _ | w
          · exfalso
            apply hc
            simp [hni, hrt]
          · rfl
      obtain ⟨w, hw⟩ := Option.isSome_iff_exists.mp hstep
      have := applyBatch_macrosAt_preserved imp tl
        (insertItem items name (mergeEntry imp (entryOrDefault items name) r).1)
        (c || (mergeEntry imp (entryOrDefault items name) r).2) name w hw
      simp [this]
    · exact ih _ _ _ _ _ htl hrt

theorem applyBatch_changed_mono (imp : Option Nat) (batch : List (Nat × Resolution)) :
    ∀ (items : Nat → Option Resolution),
      (applyBatch imp batch items true).2 = true := by
  induction batch with
  | nil => intro items; rfl
  | cons hd tl ih =>
    intro items
    obtain ⟨n0, r0⟩ := hd
    simp only [applyBatch, Bool.true_or]
    exact ih _

theorem applyBatch_changed_of_types (imp : Option Nat)
    (batch : List (Nat × Resolution)) :
    ∀ (items : Nat → Option Resolution) (c : Bool) (name : Nat) (r : Resolution)
      (v : Nat), (name, r) ∈ batch → r.def_.types = some v →
      typesAt items name = none →
      (applyBatch imp batch items c).2 = true := by
  induction batch with
  | nil => intro items c name r v h; simp at h
  | cons hd tl ih =>
    intro items c name r v hmem hrt hnone
    obtain ⟨n0, r0⟩ := hd
    simp only [applyBatch]
    by_cases hn : name = n0
    · subst hn
      by_cases h0 : r0.def_.types.isSome
      · have hch : (mergeEntry imp (entryOrDefault items name) r0).2 = true := by
          obtain ⟨w, hw⟩ := Option.isSome_iff_exists.mp h0
          refine mergeEntry_changed_types imp _ r0 w ?_ hw
          rw [entryOrDefault_types, hnone]
        rw [hch, Bool.or_true]
        exact applyBatch_changed_mono imp tl _
      · rcases List.mem_cons.mp hmem with heq | htl
        · exfalso
          obtain ⟨_, hr⟩ := Prod.mk.injEq .. ▸ heq
          subst hr
          rw [hrt] at h0
          exact h0 rfl
        · refine ih _ _ _ _ _ htl hrt ?_
          rw [step_typesAt, if_pos rfl]
          have : ¬((typesAt items name).isNone && r0.def_.types.isSome) = true := by
            simp [h0]
          rw [if_neg this]
          exact hnone
    · rcases List.mem_cons.mp hmem with heq | htl
      · exfalso
        obtain ⟨hn2, _⟩ := Prod.mk.injEq .. ▸ heq
        exact hn hn2
      · refine ih _ _ _ _ _ htl hrt ?_
        rw [step_typesAt, if_neg hn]
        exact hnone

theorem typesSlot_setItems (st : CollectorState) (m : Nat)
    (items : Nat → Option Resolution) (mod name : Nat) :
    typesSlot (setItems st m items) mod name =
      if mod = m then typesAt items name else typesSlot st mod name := by
  by_cases h : mod = m <;> simp [typesSlot, setItems, h]

theorem valuesSlot_setItems (st : CollectorState) (m : Nat)
    (items : Nat → Option Resolution) (mod name : Nat) :
    valuesSlot (setItems st m items) mod name =
      if mod = m then valuesAt items name else valuesSlot st mod name := by
  by_cases h : mod = m <;> simp [valuesSlot, setItems, h]

theorem macrosSlot_setItems (st : CollectorState) (m : Nat)
    (items : Nat → Option Resolution) (mod name : Nat) :
    macrosSlot (setItems st m items) mod name =
      if mod = m then macrosAt items name else macrosSlot st mod name := by
  by_cases h : mod = m <;> simp [macrosSlot, setItems, h]

theorem legacy_setItems (st : CollectorState) (m : Nat)
    (items : Nat → Option Resolution) (mod name : Nat) :
    ((setItems st m items).modules mod).legacyMacros name =
      (st.modules mod).legacyMacros name := by
  by_cases h : mod = m <;> simp [setItems, h]

theorem globImports_setItems (st : CollectorState) (m : Nat)
    (items : Nat → Option Resolution) (mod : Nat) :
    (setItems st m items).globImports mod = st.globImports mod := rfl

theorem setItems_applyBatch_preserved (st : CollectorState) (m : Nat)
    (imp : Option Nat) (batch : List (Nat × Resolution)) (c : Bool) :
    slotsPreserved st (setItems st m (applyBatch imp batch (st.modules m).items c).1) := by
  intro mod name
  refine ⟨?_, ?_, ?_⟩ <;> intro v h
  · rw [typesSlot_setItems]
    by_cases hm : mod = m
    · subst hm
      rw [if_pos rfl]
      exact applyBatch_typesAt_preserved imp batch _ c name v h
    · rwa [if_neg hm]
  · rw [valuesSlot_setItems]
    by_cases hm : mod = m
    · subst hm
      rw [if_pos rfl]
      exact applyBatch_valuesAt_preserved imp batch _ c name v h
    · rwa [if_neg hm]
  · rw [macrosSlot_setItems]
    by_cases hm : mod = m
    · subst hm
      rw [if_pos rfl]
      exact applyBatch_macrosAt_preserved imp batch _ c name v h
    · rwa [if_neg hm]

theorem slotsFromBatch_refl (batch : List (Nat × Resolution)) (st : CollectorState) :
    slotsFromBatch batch st st := by
  intro m name
  exact ⟨fun v h => Or.inl h, fun v h => Or.inl h, fun v h => Or.inl h⟩

theorem slotsFromBatch_trans {batch : List (Nat × Resolution)}
    {st1 st2 st3 : CollectorState} (h12 : slotsFromBatch batch st1 st2)
    (h23 : slotsFromBatch batch st2 st3) : slotsFromBatch batch st1 st3 := by
  intro m name
  obtain ⟨t12, v12, m12⟩ := h12 m name
  obtain ⟨t23, v23, m23⟩ := h23 m name
  refine ⟨fun v h => ?_, fun v h => ?_, fun v h => ?_⟩
  · rcases t23 v h with h2 | h2
    · exact t12 v h2
    · exact Or.inr h2
  · rcases v23 v h with h2 | h2
    · exact v12 v h2
    · exact Or.inr h2
  · rcases m23 v h with h2 | h2
    · exact m12 v h2
    · exact Or.inr h2

theorem setItems_applyBatch_origin (st : CollectorState) (m : Nat)
    (imp : Option Nat) (batch : List (Nat × Resolution)) (c : Bool) :
    slotsFromBatch batch st
      (setItems st m (applyBatch imp batch (st.modules m).items c).1) := by
  intro mod name
  refine ⟨?_, ?_, ?_⟩ <;> intro v h
  · rw [typesSlot_setItems] at h
    by_cases hm : mod = m
    · subst hm
      rw [if_pos rfl] at h
      exact applyBatch_typesAt_origin imp batch _ c name v h
    · rw [if_neg hm] at h
      exact Or.inl h
  · rw [valuesSlot_setItems] at h
    by_cases hm : mod = m
    · subst hm
      rw [if_pos rfl] at h
      exact applyBatch_valuesAt_origin imp batch _ c name v h
    · rw [if_neg hm] at h
      exact Or.inl h
  · rw [macrosSlot_setItems] at h
    by_cases hm : mod = m
    · subst hm
      rw [if_pos rfl] at h
      exact applyBatch_macrosAt_origin imp batch _ c name v h
    · rw [if_neg hm] at h
      exact Or.inl h

theorem runGlobs_preserved (f : CollectorState → Nat → Nat → Option CollectorState)
    (hf : ∀ s gm gi s2, f s gm gi = some s2 → slotsPreserved s s2) :
    ∀ (l : List (Nat × Nat)) (s s2 : CollectorState),
      runGlobs f s l = some s2 → slotsPreserved s s2 := by
  intro l
  induction l with
  | nil =>
    intro s s2 h
    simp only [runGlobs, Option.some.injEq] at h
    subst h
    exact slotsPreserved_refl s
  | cons hd tl ih =>
    intro s s2 h
    obtain ⟨gm, gi⟩ := hd
    simp only [runGlobs] at h
    rcases hfs : f s gm gi with _ | s1
    · rw [hfs] at h
      exact absurd h (by simp)
    · rw [hfs] at h
      exact slotsPreserved_trans (hf _ _ _ _ hfs) (ih _ _ h)

theorem runGlobs_origin (f : CollectorState → Nat → Nat → Option CollectorState)
    (batch : List (Nat × Resolution))
    (hfo : ∀ s gm gi s2, f s gm gi = some s2 → slotsFromBatch batch s s2) :
    ∀ (l : List (Nat × Nat)) (s s2 : CollectorState),
      runGlobs f s l = some s2 → slotsFromBatch batch s s2 := by
  intro l
  induction l with
  | nil =>
    intro s s2 h
    simp only [runGlobs, Option.some.injEq] at h
    subst h
    exact slotsFromBatch_refl batch s
  | cons hd tl ih =>
    intro s s2 h
    obtain ⟨gm, gi⟩ := hd
    simp only [runGlobs] at h
    rcases hfs : f s gm gi with _ | s1
    · rw [hfs] at h
      exact absurd h (by simp)
    · rw [hfs] at h
      exact slotsFromBatch_trans (hfo _ _ _ _ hfs) (ih _ _ h)

theorem runGlobs_legacy (f : CollectorState → Nat → Nat → Option CollectorState)
    (hf : ∀ s gm gi s2, f s gm gi = some s2 → ∀ mod name,
      ((s2.modules mod).legacyMacros name) = ((s.modules mod).legacyMacros name)) :
    ∀ (l : List (Nat × Nat)) (s s2 : CollectorState),
      runGlobs f s l = some s2 → ∀ mod name,
      ((s2.modules mod).legacyMacros name) = ((s.modules mod).legacyMacros name) := by
  intro l
  induction l with
  | nil =>
    intro s s2 h
    simp only [runGlobs, Option.some.injEq] at h
    subst h
    intro mod name
    rfl
  | cons hd tl ih =>
    intro s s2 h
    obtain ⟨gm, gi⟩ := hd
    simp only [runGlobs] at h
    rcases hfs : f s gm gi with _ | s1
    · rw [hfs] at h
      exact absurd h (by simp)
    · rw [hfs] at h
      intro mod name
      rw [ih _ _ h mod name, hf _ _ _ _ hfs mod name]

theorem update_recursive_preserved :
    ∀ (fuel : Nat) (st : CollectorState) (m : Nat) (imp : Option Nat)
      (batch : List (Nat × Resolution)) (st2 : CollectorState),
      update_recursive fuel st m imp batch = some st2 → slotsPreserved st st2 := by
  intro fuel
  induction fuel with
  | zero =>
    intro st m imp batch st2 h
    exact absurd h (by simp [update_recursive])
  | succ n ih =>
    intro st m imp batch st2 h
    simp only [update_recursive] at h
    by_cases hc : (applyBatch imp batch (st.modules m).items false).2 = true
    · rw [if_pos hc] at h
      refine slotsPreserved_trans (setItems_applyBatch_preserved st m imp batch false)
        (runGlobs_preserved _ ?_ _ _ _ h)
      intro s gm gi s2 hs
      exact ih s gm (some gi) batch s2 hs
    · rw [if_neg hc] at h
      obtain rfl := Option.some.injEq .. ▸ h
      exact setItems_applyBatch_preserved st m imp batch false

theorem update_recursive_origin :
    ∀ (fuel : Nat) (st : CollectorState) (m : Nat) (imp : Option Nat)
      (batch : List (Nat × Resolution)) (st2 : CollectorState),
      update_recursive fuel st m imp batch = some st2 →
      slotsFromBatch batch st st2 := by
  intro fuel
  induction fuel with
  | zero =>
    intro st m imp batch st2 h
    exact absurd h (by simp [update_recursive])
  | succ n ih =>
    intro st m imp batch st2 h
    simp only [update_recursive] at h
    by_cases hc : (applyBatch imp batch (st.modules m).items false).2 = true
    · rw [if_pos hc] at h
      refine slotsFromBatch_trans (setItems_applyBatch_origin st m imp batch false)
        (runGlobs_origin _ batch ?_ _ _ _ h)
      intro s gm gi s2 hs
      exact ih s gm (some gi) batch s2 hs
    · rw [if_neg hc] at h
      obtain rfl := Option.some.injEq .. ▸ h
      exact setItems_applyBatch_origin st m imp batch false

theorem update_recursive_legacy :
    ∀ (fuel : Nat) (st : CollectorState) (m : Nat) (imp : Option Nat)
      (batch : List (Nat × Resolution)) (st2 : CollectorState),
      update_recursive fuel st m imp batch = some st2 → ∀ mod name,
      ((st2.modules mod).legacyMacros name) = ((st.modules mod).legacyMacros name) := by
  intro fuel
  induction fuel with
  | zero =>
    intro st m imp batch st2 h
    exact absurd h (by simp [update_recursive])
  | succ n ih =>
    intro st m imp batch st2 h
    simp only [update_recursive] at h
    by_cases hc : (applyBatch imp batch (st.modules m).items false).2 = true
    · rw [if_pos hc] at h
      intro mod name
      rw [runGlobs_legacy _ (fun s gm gi s2 hs => ih s gm (some gi) batch s2 hs)
        _ _ _ h mod name]
      exact legacy_setItems st m _ mod name
    · rw [if_neg hc] at h
      obtain rfl := Option.some.injEq .. ▸ h
      intro mod name
      exact legacy_setItems st m _ mod name

theorem update_recursive_typesSlot_isSome (fuel : Nat) (st : CollectorState)
    (m : Nat) (imp : Option Nat) (batch : List (Nat × Resolution))
    (st2 : CollectorState) (name : Nat) (r : Resolution) (v : Nat)
    (h : update_recursive fuel st m imp batch = some st2)
    (hmem : (name, r) ∈ batch) (hrt : r.def_.types = some v) :
    (typesSlot st2 m name).isSome = true := by
  rcases fuel with _ | n
  · exact absurd h (by simp [update_recursive])
  · simp only [update_recursive] at h
    have hbatch : (typesSlot (setItems st m
        (applyBatch imp batch (st.modules m).items false).1) m name).isSome = true := by
      rw [typesSlot_setItems, if_pos rfl]
      exact applyBatch_typesAt_isSome imp batch _ false name r v hmem hrt
    by_cases hc : (applyBatch imp batch (st.modules m).items false).2 = true
    · rw [if_pos hc] at h
      obtain ⟨w, hw⟩ := Option.isSome_iff_exists.mp hbatch
      have hpres := runGlobs_preserved _
        (fun s gm gi s2 hs => update_recursive_preserved n s gm (some gi) batch s2 hs)
        _ _ _ h
      obtain ⟨ht, _, _⟩ := hpres m name
      rw [ht w hw]
      rfl
    · rw [if_neg hc] at h
      obtain rfl := Option.some.injEq .. ▸ h
      exact hbatch

theorem update_recursive_macrosSlot_isSome (fuel : Nat) (st : CollectorState)
    (m : Nat) (imp : Option Nat) (batch : List (Nat × Resolution))
    (st2 : CollectorState) (name : Nat) (r : Resolution) (v : Nat)
    (h : update_recursive fuel st m imp batch = some st2)
    (hmem : (name, r) ∈ batch) (hrt : r.def_.macros = some v) :
    (macrosSlot st2 m name).isSome = true := by
  rcases fuel with _ | n
  · exact absurd h (by simp [update_recursive])
  · simp only [update_recursive] at h
    have hbatch : (macrosSlot (setItems st m
        (applyBatch imp batch (st.modules m).items false).1) m name).isSome = true := by
      rw [macrosSlot_setItems, if_pos rfl]
      exact applyBatch_macrosAt_isSome imp batch _ false name r v hmem hrt
    by_cases hc : (applyBatch imp batch (st.modules m).items false).2 = true
    · rw [if_pos hc] at h
      obtain ⟨w, hw⟩ := Option.isSome_iff_exists.mp hbatch
      have hpres := runGlobs_preserved _
        (fun s gm gi s2 hs => update_recursive_preserved n s gm (some gi) batch s2 hs)
        _ _ _ h
      obtain ⟨_, _, hm2⟩ := hpres m name
      rw [hm2 w hw]
      rfl
    · rw [if_neg hc] at h
      obtain rfl := Option.some.injEq .. ▸ h
      exact hbatch

theorem runUpdates_preserved :
    ∀ (ops : List (Nat × Option Nat × List (Nat × Resolution)))
      (st st2 : CollectorState),
      runUpdates ops st = some st2 → slotsPreserved st st2 := by
  intro ops
  induction ops with
  | nil =>
    intro st st2 h
    simp only [runUpdates, Option.some.injEq] at h
    subst h
    exact slotsPreserved_refl st
  | cons hd tl ih =>
    intro st st2 h
    obtain ⟨m, imp, batch⟩ := hd
    simp only [runUpdates] at h
    rcases hu : update st m imp batch with _ | st1
    · rw [hu] at h
      exact absurd h (by simp)
    · rw [hu] at h
      exact slotsPreserved_trans (update_recursive_preserved 101 st m imp batch st1 hu)
        (ih _ _ h)

theorem runGlobs_sets_types (f : CollectorState → Nat → Nat → Option CollectorState)
    (a gi name : Nat)
    (hf : ∀ s s2, f s a gi = some s2 → (typesSlot s2 a name).isSome = true)
    (hfp : ∀ s gm gi2 s2, f s gm gi2 = some s2 → slotsPreserved s s2) :
    ∀ (l : List (Nat × Nat)) (s s2 : CollectorState), (a, gi) ∈ l →
      runGlobs f s l = some s2 → (typesSlot s2 a name).isSome = true := by
  intro l
  induction l with
  | nil => intro s s2 hm; simp at hm
  | cons hd tl ih =>
    intro s s2 hm h
    obtain ⟨gm, gi2⟩ := hd
    simp only [runGlobs] at h
    rcases hfs : f s gm gi2 with _ | s1
    · rw [hfs] at h
      exact absurd h (by simp)
    · rw [hfs] at h
      rcases List.mem_cons.mp hm with heq | htl
      · obtain ⟨h1, h2⟩ := Prod.mk.injEq .. ▸ heq
        subst h1
        subst h2
        have h3 := hf s s1 hfs
        obtain ⟨w, hw⟩ := Option.isSome_iff_exists.mp h3
        obtain ⟨ht, _, _⟩ := runGlobs_preserved f hfp tl s1 s2 h a name
        rw [ht w hw]
        rfl
      · exact ih s1 s2 htl h

theorem update_recursive_glob_sets_types (n : Nat) (st : CollectorState)
    (b : Nat) (imp : Option Nat) (batch : List (Nat × Resolution))
    (st2 : CollectorState) (a gi x : Nat) (r : Resolution) (v : Nat)
    (h : update_recursive (n + 1) st b imp batch = some st2)
    (hedge : (a, gi) ∈ st.globImports b) (hmem : (x, r) ∈ batch)
    (hrt : r.def_.types = some v) (hnone : typesSlot st b x = none) :
    (typesSlot st2 a x).isSome = true := by
  simp only [update_recursive] at h
  have hc : (applyBatch imp batch (st.modules b).items false).2 = true :=
    applyBatch_changed_of_types imp batch _ false x r v hmem hrt hnone
  rw [if_pos hc] at h
  refine runGlobs_sets_types _ a gi x ?_ ?_ _ _ _ hedge h
  · intro s s2 hs
    exact update_recursive_typesSlot_isSome n s a (some gi) batch s2 x r v hs hmem hrt
  · intro s gm gi2 s2 hs
    exact update_recursive_preserved n s gm (some gi2) batch s2 hs

theorem mergeEntry_changed_values (imp : Option Nat) (e r : Resolution) (v : Nat)
    (h1 : e.def_.values = none) (h2 : r.def_.values = some v) :
    (mergeEntry imp e r).2 = true := by
  show (_ || (mergeValues imp (mergeTypes imp e r).1 r).2 || _) = true
  have hm : (mergeValues imp (mergeTypes imp e r).1 r).2 = true := by
    have h1b : (mergeTypes imp e r).1.def_.values = none := by
      rw [mergeTypes_def_values, h1]
    unfold mergeValues
    simp [h1b, h2]
  simp [hm]

theorem applyBatch_valuesAt_isSome (imp : Option Nat)
    (batch : List (Nat × Resolution)) :
    ∀ (items : Nat → Option Resolution) (c : Bool) (name : Nat) (r : Resolution)
      (v : Nat), (name, r) ∈ batch → r.def_.values = some v →
      (valuesAt (applyBatch imp batch items c).1 name).isSome = true := by
  induction batch with
  | nil => intro items c name r v h; simp at h
  | cons hd tl ih =>
    intro items c name r v hmem hrt
    obtain ⟨n0, r0⟩ := hd
    simp only [applyBatch]
    rcases List.mem_cons.mp hmem with heq | htl
    · obtain ⟨hn, hr⟩ := Prod.mk.injEq .. ▸ heq
      subst hn
      subst hr
      have hstep : (valuesAt (insertItem items name
          (mergeEntry imp (entryOrDefault items name) r).1) name).isSome = true := by
        rw [step_valuesAt]
        simp only [if_pos rfl]
        by_cases hc : (valuesAt items name).isNone && r.def_.values.isSome
        · rw [if_pos hc, hrt]
          rfl
        · rw [if_neg hc]
          rcases hni : valuesAt items name with _ | w
          · exfalso
            apply hc
            simp [hni, hrt]
          · rfl
      obtain ⟨w, hw⟩ := Option.isSome_iff_exists.mp hstep
      have := applyBatch_valuesAt_preserved imp tl
        (insertItem items name (mergeEntry imp (entryOrDefault items name) r).1)
        (c || (mergeEntry imp (entryOrDefault items name) r).2) name w hw
      simp [this]
    · exact ih _ _ _ _ _ htl hrt

theorem applyBatch_changed_of_values (imp : Option Nat)
    (batch : List (Nat × Resolution)) :
    ∀ (items : Nat → Option Resolution) (c : Bool) (name : Nat) (r : Resolution)
      (v : Nat), (name, r) ∈ batch → r.def_.values = some v →
      valuesAt items name = none →
      (applyBatch imp batch items c).2 = true := by
  induction batch with
  | nil => intro items c name r v h; simp at h
  | cons hd tl ih =>
    intro items c name r v hmem hrt hnone
    obtain ⟨n0, r0⟩ := hd
    simp only [applyBatch]
    by_cases hn : name = n0
    · subst hn
      by_cases h0 : r0.def_.values.isSome
      · have hch : (mergeEntry imp (entryOrDefault items name) r0).2 = true := by
          obtain ⟨w, hw⟩ := Option.isSome_iff_exists.mp h0
          refine mergeEntry_changed_values imp _ r0 w ?_ hw
          rw [entryOrDefault_values, hnone]
        rw [hch, Bool.or_true]
        exact applyBatch_changed_mono imp tl _
      · rcases List.mem_cons.mp hmem with heq | htl
        · exfalso
          obtain ⟨_, hr⟩ := Prod.mk.injEq .. ▸ heq
          subst hr
          rw [hrt] at h0
          exact h0 rfl
        · refine ih _ _ _ _ _ htl hrt ?_
          rw [step_valuesAt, if_pos rfl]
          have : ¬((valuesAt items name).isNone && r0.def_.values.isSome) = true := by
            simp [h0]
          rw [if_neg this]
          exact hnone
    · rcases List.mem_cons.mp hmem with heq | htl
      · exfalso
        obtain ⟨hn2, _⟩ := Prod.mk.injEq .. ▸ heq
        exact hn hn2
      · refine ih _ _ _ _ _ htl hrt ?_
        rw [step_valuesAt, if_neg hn]
        exact hnone

theorem applyBatch_changed_of_macros (imp : Option Nat)
    (batch : List (Nat × Resolution)) :
    ∀ (items : Nat → Option Resolution) (c : Bool) (name : Nat) (r : Resolution)
      (v : Nat), (name, r) ∈ batch → r.def_.macros = some v →
      macrosAt items name = none →
      (applyBatch imp batch items c).2 = true := by
  induction batch with
  | nil => intro items c name r v h; simp at h
  | cons hd tl ih =>
    intro items c name r v hmem hrt hnone
    obtain ⟨n0, r0⟩ := hd
    simp only [applyBatch]
    by_cases hn : name = n0
    · subst hn
      by_cases h0 : r0.def_.macros.isSome
      · have hch : (mergeEntry imp (entryOrDefault items name) r0).2 = true := by
          obtain ⟨w, hw⟩ := Option.isSome_iff_exists.mp h0
          refine mergeEntry_changed_macros imp _ r0 w ?_ hw
          rw [entryOrDefault_macros, hnone]
        rw [hch, Bool.or_true]
        exact applyBatch_changed_mono imp tl _
      · rcases List.mem_cons.mp hmem with heq | htl
        · exfalso
          obtain ⟨_, hr⟩ := Prod.mk.injEq .. ▸ heq
          subst hr
          rw [hrt] at h0
          exact h0 rfl
        · refine ih _ _ _ _ _ htl hrt ?_
          rw [step_macrosAt, if_pos rfl]
          have : ¬((macrosAt items name).isNone && r0.def_.macros.isSome) = true := by
            simp [h0]
          rw [if_neg this]
          exact hnone
    · rcases List.mem_cons.mp hmem with heq | htl
      · exfalso
        obtain ⟨hn2, _⟩ := Prod.mk.injEq .. ▸ heq
        exact hn hn2
      · refine ih _ _ _ _ _ htl hrt ?_
        rw [step_macrosAt, if_neg hn]
        exact hnone

theorem update_recursive_valuesSlot_isSome (fuel : Nat) (st : CollectorState)
    (m : Nat) (imp : Option Nat) (batch : List (Nat × Resolution))
    (st2 : CollectorState) (name : Nat) (r : Resolution) (v : Nat)
    (h : update_recursive fuel st m imp batch = some st2)
    (hmem : (name, r) ∈ batch) (hrt : r.def_.values = some v) :
    (valuesSlot st2 m name).isSome = true := by
  rcases fuel with _ | n
  · exact absurd h (by simp [update_recursive])
  · simp only [update_recursive] at h
    have hbatch : (valuesSlot (setItems st m
        (applyBatch imp batch (st.modules m).items false).1) m name).isSome = true := by
      rw [valuesSlot_setItems, if_pos rfl]
      exact applyBatch_valuesAt_isSome imp batch _ false name r v hmem hrt
    by_cases hc : (applyBatch imp batch (st.modules m).items false).2 = true
    · rw [if_pos hc] at h
      obtain ⟨w, hw⟩ := Option.isSome_iff_exists.mp hbatch
      have hpres := runGlobs_preserved _
        (fun s gm gi s2 hs => update_recursive_preserved n s gm (some gi) batch s2 hs)
        _ _ _ h
      obtain ⟨_, hv2, _⟩ := hpres m name
      rw [hv2 w hw]
      rfl
    · rw [if_neg hc] at h
      obtain rfl := Option.some.injEq .. ▸ h
      exact hbatch

theorem runGlobs_globImports (f : CollectorState → Nat → Nat → Option CollectorState)
    (hf : ∀ s gm gi s2, f s gm gi = some s2 → ∀ mod,
      s2.globImports mod = s.globImports mod) :
    ∀ (l : List (Nat × Nat)) (s s2 : CollectorState),
      runGlobs f s l = some s2 → ∀ mod,
      s2.globImports mod = s.globImports mod := by
  intro l
  induction l with
  | nil =>
    intro s s2 h
    simp only [runGlobs, Option.some.injEq] at h
    subst h
    intro mod
    rfl
  | cons hd tl ih =>
    intro s s2 h
    obtain ⟨gm, gi⟩ := hd
    simp only [runGlobs] at h
    rcases hfs : f s gm gi with _ | s1
    · rw [hfs] at h
      exact absurd h (by simp)
    · rw [hfs] at h
      intro mod
      rw [ih _ _ h mod, hf _ _ _ _ hfs mod]

theorem update_recursive_globImports :
    ∀ (fuel : Nat) (st : CollectorState) (m : Nat) (imp : Option Nat)
      (batch : List (Nat × Resolution)) (st2 : CollectorState),
      update_recursive fuel st m imp batch = some st2 → ∀ mod,
      st2.globImports mod = st.globImports mod := by
  intro fuel
  induction fuel with
  | zero =>
    intro st m imp batch st2 h
    exact absurd h (by simp [update_recursive])
  | succ n ih =>
    intro st m imp batch st2 h
    simp only [update_recursive] at h
    by_cases hc : (applyBatch imp batch (st.modules m).items false).2 = true
    · rw [if_pos hc] at h
      intro mod
      rw [runGlobs_globImports _ (fun s gm gi s2 hs => ih s gm (some gi) batch s2 hs)
        _ _ _ h mod]
      exact globImports_setItems st m _ mod
    · rw [if_neg hc] at h
      obtain rfl := Option.some.injEq .. ▸ h
      intro mod
      exact globImports_setItems st m _ mod

theorem runGlobs_sets_values (f : CollectorState → Nat → Nat → Option CollectorState)
    (a gi name : Nat)
    (hf : ∀ s s2, f s a gi = some s2 → (valuesSlot s2 a name).isSome = true)
    (hfp : ∀ s gm gi2 s2, f s gm gi2 = some s2 → slotsPreserved s s2) :
    ∀ (l : List (Nat × Nat)) (s s2 : CollectorState), (a, gi) ∈ l →
      runGlobs f s l = some s2 → (valuesSlot s2 a name).isSome = true := by
  intro l
  induction l with
  | nil => intro s s2 hm; simp at hm
  | cons hd tl ih =>
    intro s s2 hm h
    obtain ⟨gm, gi2⟩ := hd
    simp only [runGlobs] at h
    rcases hfs : f s gm gi2 with _ | s1
    · rw [hfs] at h
      exact absurd h (by simp)
    · rw [hfs] at h
      rcases List.mem_cons.mp hm with heq | htl
      · obtain ⟨h1, h2⟩ := Prod.mk.injEq .. ▸ heq
        subst h1
        subst h2
        have h3 := hf s s1 hfs
        obtain ⟨w, hw⟩ := Option.isSome_iff_exists.mp h3
        obtain ⟨_, hv2, _⟩ := runGlobs_preserved f hfp tl s1 s2 h a name
        rw [hv2 w hw]
        rfl
      · exact ih s1 s2 htl h

theorem runGlobs_sets_macros (f : CollectorState → Nat → Nat → Option CollectorState)
    (a gi name : Nat)
    (hf : ∀ s s2, f s a gi = some s2 → (macrosSlot s2 a name).isSome = true)
    (hfp : ∀ s gm gi2 s2, f s gm gi2 = some s2 → slotsPreserved s s2) :
    ∀ (l : List (Nat × Nat)) (s s2 : CollectorState), (a, gi) ∈ l →
      runGlobs f s l = some s2 → (macrosSlot s2 a name).isSome = true := by
  intro l
  induction l with
  | nil => intro s s2 hm; simp at hm
  | cons hd tl ih =>
    intro s s2 hm h
    obtain ⟨gm, gi2⟩ := hd
    simp only [runGlobs] at h
    rcases hfs : f s gm gi2 with _ | s1
    · rw [hfs] at h
      exact absurd h (by simp)
    · rw [hfs] at h
      rcases List.mem_cons.mp hm with heq | htl
      · obtain ⟨h1, h2⟩ := Prod.mk.injEq .. ▸ heq
        subst h1
        subst h2
        have h3 := hf s s1 hfs
        obtain ⟨w, hw⟩ := Option.isSome_iff_exists.mp h3
        obtain ⟨_, _, hm2⟩ := runGlobs_preserved f hfp tl s1 s2 h a name
        rw [hm2 w hw]
        rfl
      · exact ih s1 s2 htl h

theorem defineLegacyMacro_items (st : CollectorState) (m name mac : Nat)
    (mod : Nat) : ((defineLegacyMacro st m name mac).modules mod).items =
      (st.modules mod).items := by
  by_cases h : mod = m <;> simp [defineLegacyMacro, h]

theorem defineLegacyMacro_same (st : CollectorState) (m name mac : Nat) :
    ((defineLegacyMacro st m name mac).modules m).legacyMacros name = some mac := by
  simp [defineLegacyMacro]

theorem runGlobs_closure_types (f : CollectorState → Nat → Nat → Option CollectorState)
    (m a x : Nat) (G : List (Nat × Nat))
    (hfc : ∀ s gm gi2 s2, f s gm gi2 = some s2 → s.globImports m = G →
      typesSlot s m x = none → (typesSlot s2 m x).isSome = true →
      (typesSlot s2 a x).isSome = true)
    (hfp : ∀ s gm gi2 s2, f s gm gi2 = some s2 → slotsPreserved s s2)
    (hfg : ∀ s gm gi2 s2, f s gm gi2 = some s2 → ∀ mod,
      s2.globImports mod = s.globImports mod) :
    ∀ (l : List (Nat × Nat)) (s s2 : CollectorState), runGlobs f s l = some s2 →
      s.globImports m = G → typesSlot s m x = none →
      (typesSlot s2 m x).isSome = true → (typesSlot s2 a x).isSome = true := by
  intro l
  induction l with
  | nil =>
    intro s s2 h _ hnone hsome
    simp only [runGlobs, Option.some.injEq] at h
    subst h
    rw [hnone] at hsome
    exact absurd hsome (by simp)
  | cons hd tl ih =>
    intro s s2 h hG hnone hsome
    obtain ⟨gm, gi2⟩ := hd
    simp only [runGlobs] at h
    rcases hfs : f s gm gi2 with _ | s1
    · rw [hfs] at h
      exact absurd h (by simp)
    · rw [hfs] at h
      have hG1 : s1.globImports m = G := by
        rw [hfg _ _ _ _ hfs m]
        exact hG
      rcases hs1 : typesSlot s1 m x with _ | w
      · exact ih s1 s2 h hG1 hs1 hsome
      · have hsome1 : (typesSlot s1 m x).isSome = true := by
          rw [hs1]
          rfl
        have ha1 := hfc s gm gi2 s1 hfs hG hnone hsome1
        obtain ⟨w2, hw2⟩ := Option.isSome_iff_exists.mp ha1
        obtain ⟨ht, _, _⟩ := runGlobs_preserved f hfp tl s1 s2 h a x
        rw [ht w2 hw2]
        rfl

theorem runGlobs_closure_values (f : CollectorState → Nat → Nat → Option CollectorState)
    (m a x : Nat) (G : List (Nat × Nat))
    (hfc : ∀ s gm gi2 s2, f s gm gi2 = some s2 → s.globImports m = G →
      valuesSlot s m x = none → (valuesSlot s2 m x).isSome = true →
      (valuesSlot s2 a x).isSome = true)
    (hfp : ∀ s gm gi2 s2, f s gm gi2 = some s2 → slotsPreserved s s2)
    (hfg : ∀ s gm gi2 s2, f s gm gi2 = some s2 → ∀ mod,
      s2.globImports mod = s.globImports mod) :
    ∀ (l : List (Nat × Nat)) (s s2 : CollectorState), runGlobs f s l = some s2 →
      s.globImports m = G → valuesSlot s m x = none →
      (valuesSlot s2 m x).isSome = true → (valuesSlot s2 a x).isSome = true := by
  intro l
  induction l with
  | nil =>
    intro s s2 h _ hnone hsome
    simp only [runGlobs, Option.some.injEq] at h
    subst h
    rw [hnone] at hsome
    exact absurd hsome (by simp)
  | cons hd tl ih =>
    intro s s2 h hG hnone hsome
    obtain ⟨gm, gi2⟩ := hd
    simp only [runGlobs] at h
    rcases hfs : f s gm gi2 with _ | s1
    · rw [hfs] at h
      exact absurd h (by simp)
    · rw [hfs] at h
      have hG1 : s1.globImports m = G := by
        rw [hfg _ _ _ _ hfs m]
        exact hG
      rcases hs1 : valuesSlot s1 m x with _ | w
      · exact ih s1 s2 h hG1 hs1 hsome
      · have hsome1 : (valuesSlot s1 m x).isSome = true := by
          rw [hs1]
          rfl
        have ha1 := hfc s gm gi2 s1 hfs hG hnone hsome1
        obtain ⟨w2, hw2⟩ := Option.isSome_iff_exists.mp ha1
        obtain ⟨_, hv2, _⟩ := runGlobs_preserved f hfp tl s1 s2 h a x
        rw [hv2 w2 hw2]
        rfl

theorem runGlobs_closure_macros (f : CollectorState → Nat → Nat → Option CollectorState)
    (m a x : Nat) (G : List (Nat × Nat))
    (hfc : ∀ s gm gi2 s2, f s gm gi2 = some s2 → s.globImports m = G →
      macrosSlot s m x = none → (macrosSlot s2 m x).isSome = true →
      (macrosSlot s2 a x).isSome = true)
    (hfp : ∀ s gm gi2 s2, f s gm gi2 = some s2 → slotsPreserved s s2)
    (hfg : ∀ s gm gi2 s2, f s gm gi2 = some s2 → ∀ mod,
      s2.globImports mod = s.globImports mod) :
    ∀ (l : List (Nat × Nat)) (s s2 : CollectorState), runGlobs f s l = some s2 →
      s.globImports m = G → macrosSlot s m x = none →
      (macrosSlot s2 m x).isSome = true → (macrosSlot s2 a x).isSome = true := by
  intro l
  induction l with
  | nil =>
    intro s s2 h _ hnone hsome
    simp only [runGlobs, Option.some.injEq] at h
    subst h
    rw [hnone] at hsome
    exact absurd hsome (by simp)
  | cons hd tl ih =>
    intro s s2 h hG hnone hsome
    obtain ⟨gm, gi2⟩ := hd
    simp only [runGlobs] at h
    rcases hfs : f s gm gi2 with _ | s1
    · rw [hfs] at h
      exact absurd h (by simp)
    · rw [hfs] at h
      have hG1 : s1.globImports m = G := by
        rw [hfg _ _ _ _ hfs m]
        exact hG
      rcases hs1 : macrosSlot s1 m x with _ | w
      · exact ih s1 s2 h hG1 hs1 hsome
      · have hsome1 : (macrosSlot s1 m x).isSome = true := by
          rw [hs1]
          rfl
        have ha1 := hfc s gm gi2 s1 hfs hG hnone hsome1
        obtain ⟨w2, hw2⟩ := Option.isSome_iff_exists.mp ha1
        obtain ⟨_, _, hm2⟩ := runGlobs_preserved f hfp tl s1 s2 h a x
        rw [hm2 w2 hw2]
        rfl

theorem update_recursive_closure_types (batch : List (Nat × Resolution))
    (x : Nat) (r : Resolution) (v : Nat)
    (hmem : (x, r) ∈ batch) (hrt : r.def_.types = some v) :
    ∀ (fuel : Nat) (st : CollectorState) (m0 : Nat) (imp : Option Nat)
      (st2 : CollectorState),
      update_recursive fuel st m0 imp batch = some st2 →
      ∀ m a gi, (a, gi) ∈ st.globImports m → typesSlot st m x = none →
        (typesSlot st2 m x).isSome = true → (typesSlot st2 a x).isSome = true := by
  intro fuel
  induction fuel with
  | zero =>
    intro st m0 imp st2 h
    exact absurd h (by simp [update_recursive])
  | succ n ih =>
    intro st m0 imp st2 h m a gi hedge hnone hsome
    simp only [update_recursive] at h
    by_cases hc : (applyBatch imp batch (st.modules m0).items false).2 = true
    · rw [if_pos hc] at h
      by_cases hm : m = m0
      · subst hm
        refine runGlobs_sets_types _ a gi x ?_ ?_ _ _ _ hedge h
        · intro s s2b hs
          exact update_recursive_typesSlot_isSome n s a (some gi) batch s2b x r v
            hs hmem hrt
        · intro s gm gi2 s2b hs
          exact update_recursive_preserved n s gm (some gi2) batch s2b hs
      · have hnone1 : typesSlot (setItems st m0
            (applyBatch imp batch (st.modules m0).items false).1) m x = none := by
          rw [typesSlot_setItems, if_neg hm]
          exact hnone
        refine runGlobs_closure_types _ m a x (st.globImports m) ?_ ?_ ?_
          (st.globImports m0) _ st2 h rfl hnone1 hsome
        · intro s gm gi2 s2b hs hG hnone2 hsome2
          refine ih s gm (some gi2) s2b hs m a gi ?_ hnone2 hsome2
          rw [hG]
          exact hedge
        · intro s gm gi2 s2b hs
          exact update_recursive_preserved n s gm (some gi2) batch s2b hs
        · intro s gm gi2 s2b hs
          exact update_recursive_globImports n s gm (some gi2) batch s2b hs
    · rw [if_neg hc] at h
      obtain rfl := Option.some.injEq .. ▸ h
      by_cases hm : m = m0
      · subst hm
        exact absurd (applyBatch_changed_of_types imp batch _ false x r v hmem
          hrt hnone) hc
      · rw [typesSlot_setItems, if_neg hm, hnone] at hsome
        exact absurd hsome (by simp)

theorem update_recursive_closure_values (batch : List (Nat × Resolution))
    (x : Nat) (r : Resolution) (v : Nat)
    (hmem : (x, r) ∈ batch) (hrt : r.def_.values = some v) :
    ∀ (fuel : Nat) (st : CollectorState) (m0 : Nat) (imp : Option Nat)
      (st2 : CollectorState),
      update_recursive fuel st m0 imp batch = some st2 →
      ∀ m a gi, (a, gi) ∈ st.globImports m → valuesSlot st m x = none →
        (valuesSlot st2 m x).isSome = true → (valuesSlot st2 a x).isSome = true := by
  intro fuel
  induction fuel with
  | zero =>
    intro st m0 imp st2 h
    exact absurd h (by simp [update_recursive])
  | succ n ih =>
    intro st m0 imp st2 h m a gi hedge hnone hsome
    simp only [update_recursive] at h
    by_cases hc : (applyBatch imp batch (st.modules m0).items false).2 = true
    · rw [if_pos hc] at h
      by_cases hm : m = m0
      · subst hm
        refine runGlobs_sets_values _ a gi x ?_ ?_ _ _ _ hedge h
        · intro s s2b hs
          exact update_recursive_valuesSlot_isSome n s a (some gi) batch s2b x r v
            hs hmem hrt
        · intro s gm gi2 s2b hs
          exact update_recursive_preserved n s gm (some gi2) batch s2b hs
      · have hnone1 : valuesSlot (setItems st m0
            (applyBatch imp batch (st.modules m0).items false).1) m x = none := by
          rw [valuesSlot_setItems, if_neg hm]
          exact hnone
        refine runGlobs_closure_values _ m a x (st.globImports m) ?_ ?_ ?_
          (st.globImports m0) _ st2 h rfl hnone1 hsome
        · intro s gm gi2 s2b hs hG hnone2 hsome2
          refine ih s gm (some gi2) s2b hs m a gi ?_ hnone2 hsome2
          rw [hG]
          exact hedge
        · intro s gm gi2 s2b hs
          exact update_recursive_preserved n s gm (some gi2) batch s2b hs
        · intro s gm gi2 s2b hs
          exact update_recursive_globImports n s gm (some gi2) batch s2b hs
    · rw [if_neg hc] at h
      obtain rfl := Option.some.injEq .. ▸ h
      by_cases hm : m = m0
      · subst hm
        exact absurd (applyBatch_changed_of_values imp batch _ false x r v hmem
          hrt hnone) hc
      · rw [valuesSlot_setItems, if_neg hm, hnone] at hsome
        exact absurd hsome (by simp)

theorem update_recursive_closure_macros (batch : List (Nat × Resolution))
    (x : Nat) (r : Resolution) (v : Nat)
    (hmem : (x, r) ∈ batch) (hrt : r.def_.macros = some v) :
    ∀ (fuel : Nat) (st : CollectorState) (m0 : Nat) (imp : Option Nat)
      (st2 : CollectorState),
      update_recursive fuel st m0 imp batch = some st2 →
      ∀ m a gi, (a, gi) ∈ st.globImports m → macrosSlot st m x = none →
        (macrosSlot st2 m x).isSome = true → (macrosSlot st2 a x).isSome = true := by
  intro fuel
  induction fuel with
  | zero =>
    intro st m0 imp st2 h
    exact absurd h (by simp [update_recursive])
  | succ n ih =>
    intro st m0 imp st2 h m a gi hedge hnone hsome
    simp only [update_recursive] at h
    by_cases hc : (applyBatch imp batch (st.modules m0).items false).2 = true
    · rw [if_pos hc] at h
      by_cases hm : m = m0
      · subst hm
        refine runGlobs_sets_macros _ a gi x ?_ ?_ _ _ _ hedge h
        · intro s s2b hs
          exact update_recursive_macrosSlot_isSome n s a (some gi) batch s2b x r v
            hs hmem hrt
        · intro s gm gi2 s2b hs
          exact update_recursive_preserved n s gm (some gi2) batch s2b hs
      · have hnone1 : macrosSlot (setItems st m0
            (applyBatch imp batch (st.modules m0).items false).1) m x = none := by
          rw [macrosSlot_setItems, if_neg hm]
          exact hnone
        refine runGlobs_closure_macros _ m a x (st.globImports m) ?_ ?_ ?_
          (st.globImports m0) _ st2 h rfl hnone1 hsome
        · intro s gm gi2 s2b hs hG hnone2 hsome2
          refine ih s gm (some gi2) s2b hs m a gi ?_ hnone2 hsome2
          rw [hG]
          exact hedge
        · intro s gm gi2 s2b hs
          exact update_recursive_preserved n s gm (some gi2) batch s2b hs
        · intro s gm gi2 s2b hs
          exact update_recursive_globImports n s gm (some gi2) batch s2b hs
    · rw [if_neg hc] at h
      obtain rfl := Option.some.injEq .. ▸ h
      by_cases hm : m = m0
      · subst hm
        exact absurd (applyBatch_changed_of_macros imp batch _ false x r v hmem
          hrt hnone) hc
      · rw [macrosSlot_setItems, if_neg hm, hnone] at hsome
        exact absurd hsome (by simp)

theorem globChain_sets (st st2 : CollectorState)
    (slot : CollectorState → Nat → Option Nat)
    (hclosure : ∀ m a gi, (a, gi) ∈ st.globImports m → slot st m = none →
      (slot st2 m).isSome = true → (slot st2 a).isSome = true) :
    ∀ (ms : List Nat) (b : Nat), globChain st b ms → slot st b = none →
      (slot st2 b).isSome = true → (∀ m ∈ ms, slot st m = none) →
      ∀ m ∈ ms, (slot st2 m).isSome = true := by
  intro ms
  induction ms with
  | nil => intro b _ _ _ _ m hm; simp at hm
  | cons a rest ih =>
    intro b hchain hbnone hbsome hallnone m hm
    obtain ⟨⟨gi, hgi⟩, hrest⟩ := hchain
    have hanone : slot st a = none := hallnone a (List.mem_cons_self _ _)
    have hasome : (slot st2 a).isSome = true := hclosure b a gi hgi hbnone hbsome
    rcases List.mem_cons.mp hm with rfl | hm2
    · exact hasome
    · exact ih a hrest hanone hasome
        (fun m2 hm2b => hallnone m2 (List.mem_cons_of_mem _ hm2b)) m hm2

theorem update_exact_types (st : CollectorState) (b : Nat) (imp : Option Nat)
    (batch : List (Nat × Resolution)) (st2 : CollectorState) (x v : Nat)
    (h : update st b imp batch = some st2) (m : Nat)
    (hnone : typesSlot st m x = none)
    (hsome : (typesSlot st2 m x).isSome = true)
    (huniq : ∀ r2, (x, r2) ∈ batch → r2.def_.types = some v ∨ r2.def_.types = none) :
    typesSlot st2 m x = some v := by
  obtain ⟨w, hw⟩ := Option.isSome_iff_exists.mp hsome
  obtain ⟨ht, _, _⟩ := update_recursive_origin 101 st b imp batch st2 h m x
  rcases ht w hw with h1 | ⟨r2, hr2, hr2t⟩
  · rw [hnone] at h1
    exact absurd h1 (by simp)
  · rcases huniq r2 hr2 with h2 | h2
    · rw [hw, hr2t.symm.trans h2]
    · rw [h2] at hr2t
      exact absurd hr2t (by simp)

theorem update_exact_values (st : CollectorState) (b : Nat) (imp : Option Nat)
    (batch : List (Nat × Resolution)) (st2 : CollectorState) (x v : Nat)
    (h : update st b imp batch = some st2) (m : Nat)
    (hnone : valuesSlot st m x = none)
    (hsome : (valuesSlot st2 m x).isSome = true)
    (huniq : ∀ r2, (x, r2) ∈ batch → r2.def_.values = some v ∨ r2.def_.values = none) :
    valuesSlot st2 m x = some v := by
  obtain ⟨w, hw⟩ := Option.isSome_iff_exists.mp hsome
  obtain ⟨_, hv2, _⟩ := update_recursive_origin 101 st b imp batch st2 h m x
  rcases hv2 w hw with h1 | ⟨r2, hr2, hr2t⟩
  · rw [hnone] at h1
    exact absurd h1 (by simp)
  · rcases huniq r2 hr2 with h2 | h2
    · rw [hw, hr2t.symm.trans h2]
    · rw [h2] at hr2t
      exact absurd hr2t (by simp)

theorem update_exact_macros (st : CollectorState) (b : Nat) (imp : Option Nat)
    (batch : List (Nat × Resolution)) (st2 : CollectorState) (x v : Nat)
    (h : update st b imp batch = some st2) (m : Nat)
    (hnone : macrosSlot st m x = none)
    (hsome : (macrosSlot st2 m x).isSome = true)
    (huniq : ∀ r2, (x, r2) ∈ batch → r2.def_.macros = some v ∨ r2.def_.macros = none) :
    macrosSlot st2 m x = some v := by
  obtain ⟨w, hw⟩ := Option.isSome_iff_exists.mp hsome
  obtain ⟨_, _, hm2⟩ := update_recursive_origin 101 st b imp batch st2 h m x
  rcases hm2 w hw with h1 | ⟨r2, hr2, hr2t⟩
  · rw [hnone] at h1
    exact absurd h1 (by simp)
  · rcases huniq r2 hr2 with h2 | h2
    · rw [hw, hr2t.symm.trans h2]
    · rw [h2] at hr2t
      exact absurd hr2t (by simp)

/-- Sanity: `update` on an empty scope writes the batch's type and macro
slots. -/
theorem update_sanity_writes :
    (update stEmpty 0 none [(5, ⟨⟨some 3, none, some 7⟩, none⟩)]).map
      (fun s => (typesSlot s 0 5, macrosSlot s 0 5)) = some (some 3, some 7) := rfl

/-- Sanity: `update` on a module with a recorded glob importer replays the
batch into the importer. -/
theorem update_sanity_glob :
    (update stGlob 0 none [(5, ⟨⟨some 3, none, none⟩, none⟩)]).map
      (fun s => (typesSlot s 1 5, typesSlot s 0 5)) = some (some 3, some 3) := rfl

/-- Sanity: `update` leaves an already-set slot alone (first write wins). -/
theorem update_sanity_first_write :
    (update stPre 0 none [(5, ⟨⟨some 3, none, none⟩, none⟩)]).map
      (fun s => typesSlot s 0 5) = some (some 9) := rfl

/-- Claim C1: when the collector's `update`/`update_recursive` merges a batch
of (name, resolution) pairs into a module's scope, then in every scope and
for each of the three namespaces independently, a slot that is already set
keeps exactly its old value (`slotsPreserved`), and a slot that was empty is
written only from a batch entry for that name that actually carries the
namespace (`slotsFromBatch`); moreover any sequence of `update` calls of the
same pass (`runUpdates`) likewise never overwrites a set slot, regardless of
processing order. -/
theorem claim_C1_first_write_wins (fuel : Nat) (st : CollectorState) (m : Nat)
    (imp : Option Nat) (batch : List (Nat × Resolution)) (st2 : CollectorState)
    (h : update_recursive fuel st m imp batch = some st2) :
    slotsPreserved st st2 ∧ slotsFromBatch batch st st2 ∧
      (∀ (ops : List (Nat × Option Nat × List (Nat × Resolution)))
        (s s2 : CollectorState), runUpdates ops s = some s2 → slotsPreserved s s2) :=
  ⟨update_recursive_preserved fuel st m imp batch st2 h,
   update_recursive_origin fuel st m imp batch st2 h,
   runUpdates_preserved⟩

/-- Witness for C1 at a concrete input: updating a module whose slot already
holds type entity 9 with a batch offering 3 leaves the slot at 9. -/
theorem claim_C1_first_write_wins_witness :
    ∃ st2, update_recursive 101 stPre 0 none [(5, ⟨⟨some 3, none, none⟩, none⟩)] =
      some st2 ∧ typesSlot st2 0 5 = some 9 := by
  have hs : (update_recursive 101 stPre 0 none
      [(5, ⟨⟨some 3, none, none⟩, none⟩)]).isSome = true := rfl
  obtain ⟨st2, h2⟩ := Option.isSome_iff_exists.mp hs
  exact ⟨st2, h2,
    ((claim_C1_first_write_wins 101 stPre 0 none _ st2 h2).1 0 5).1 9 rfl⟩

/-- Sanity: a batch written into module 0 of the two-step glob chain
(module 1 globs 0, module 2 globs 1) propagates transitively into module 2,
in all three namespaces. -/
theorem update_sanity_glob_transitive :
    (update stChain3 0 none [(5, ⟨⟨some 3, some 4, some 7⟩, none⟩)]).map
      (fun s => (typesSlot s 2 5, valuesSlot s 2 5, macrosSlot s 2 5)) =
      some (some 3, some 4, some 7) := rfl

/-- Claim C3: processing a same-crate glob import records the glob edge once
and without introducing duplicates (`recordGlobEdge`); an `update` into the
globbed module `b` that gives it a new item `x` replays the same batch into
every recorded glob importer `a` — stated for each of the three namespaces,
since the glob copy carries types, values and module-scoped macros alike —
so `a`'s slot for `x` is set afterwards, and to exactly the new entity when
`a`'s slot was empty and the batch binds `x` unambiguously; and the replay
continues transitively: every module along a chain of recorded glob edges
out of `b` whose slot for `x` was still empty ends up with `x` set (again
with the exact entity under the same provisos). -/
theorem claim_C3_glob_transitivity :
    (∀ (st : CollectorState) (b m i : Nat),
      ((m, i) ∈ (recordGlobEdge st b m i).globImports b) ∧
      ((st.globImports b).Nodup → ((recordGlobEdge st b m i).globImports b).Nodup)) ∧
    (∀ (st : CollectorState) (b : Nat) (imp : Option Nat)
      (batch : List (Nat × Resolution)) (st2 : CollectorState) (a gi x : Nat)
      (r : Resolution) (v : Nat),
      update st b imp batch = some st2 →
      (a, gi) ∈ st.globImports b → (x, r) ∈ batch → r.def_.types = some v →
      typesSlot st b x = none →
      (typesSlot st2 a x).isSome = true ∧ (typesSlot st2 b x).isSome = true ∧
      (typesSlot st a x = none →
        (∀ r2, (x, r2) ∈ batch → r2.def_.types = some v ∨ r2.def_.types = none) →
        typesSlot st2 a x = some v)) ∧
    (∀ (st : CollectorState) (b : Nat) (imp : Option Nat)
      (batch : List (Nat × Resolution)) (st2 : CollectorState) (a gi x : Nat)
      (r : Resolution) (v : Nat),
      update st b imp batch = some st2 →
      (a, gi) ∈ st.globImports b → (x, r) ∈ batch → r.def_.values = some v →
      valuesSlot st b x = none →
      (valuesSlot st2 a x).isSome = true ∧ (valuesSlot st2 b x).isSome = true ∧
      (valuesSlot st a x = none →
        (∀ r2, (x, r2) ∈ batch → r2.def_.values = some v ∨ r2.def_.values = none) →
        valuesSlot st2 a x = some v)) ∧
    (∀ (st : CollectorState) (b : Nat) (imp : Option Nat)
      (batch : List (Nat × Resolution)) (st2 : CollectorState) (a gi x : Nat)
      (r : Resolution) (v : Nat),
      update st b imp batch = some st2 →
      (a, gi) ∈ st.globImports b → (x, r) ∈ batch → r.def_.macros = some v →
      macrosSlot st b x = none →
      (macrosSlot st2 a x).isSome = true ∧ (macrosSlot st2 b x).isSome = true ∧
      (macrosSlot st a x = none →
        (∀ r2, (x, r2) ∈ batch → r2.def_.macros = some v ∨ r2.def_.macros = none) →
        macrosSlot st2 a x = some v)) ∧
    (∀ (st : CollectorState) (b : Nat) (imp : Option Nat)
      (batch : List (Nat × Resolution)) (st2 : CollectorState) (x : Nat)
      (r : Resolution) (v : Nat) (ms : List Nat),
      update st b imp batch = some st2 →
      (x, r) ∈ batch → r.def_.types = some v →
      globChain st b ms → typesSlot st b x = none →
      (∀ m ∈ ms, typesSlot st m x = none) →
      ∀ m ∈ ms, (typesSlot st2 m x).isSome = true ∧
        ((∀ r2, (x, r2) ∈ batch → r2.def_.types = some v ∨ r2.def_.types = none) →
          typesSlot st2 m x = some v)) ∧
    (∀ (st : CollectorState) (b : Nat) (imp : Option Nat)
      (batch : List (Nat × Resolution)) (st2 : CollectorState) (x : Nat)
      (r : Resolution) (v : Nat) (ms : List Nat),
      update st b imp batch = some st2 →
      (x, r) ∈ batch → r.def_.values = some v →
      globChain st b ms → valuesSlot st b x = none →
      (∀ m ∈ ms, valuesSlot st m x = none) →
      ∀ m ∈ ms, (valuesSlot st2 m x).isSome = true ∧
        ((∀ r2, (x, r2) ∈ batch → r2.def_.values = some v ∨ r2.def_.values = none) →
          valuesSlot st2 m x = some v)) ∧
    (∀ (st : CollectorState) (b : Nat) (imp : Option Nat)
      (batch : List (Nat × Resolution)) (st2 : CollectorState) (x : Nat)
      (r : Resolution) (v : Nat) (ms : List Nat),
      update st b imp batch = some st2 →
      (x, r) ∈ batch → r.def_.macros = some v →
      globChain st b ms → macrosSlot st b x = none →
      (∀ m ∈ ms, macrosSlot st m x = none) →
      ∀ m ∈ ms, (macrosSlot st2 m x).isSome = true ∧
        ((∀ r2, (x, r2) ∈ batch → r2.def_.macros = some v ∨ r2.def_.macros = none) →
          macrosSlot st2 m x = some v)) := by
  refine ⟨?_, ?_, ?_, ?_, ?_, ?_, ?_⟩
  · intro st b m i
    constructor
    · unfold recordGlobEdge
      by_cases hmem : (st.globImports b).any (fun it => it = (m, i)) = true
      · rw [if_pos hmem]
        obtain ⟨it, hit, heq⟩ := List.any_eq_true.mp hmem
        obtain rfl := of_decide_eq_true heq
        exact hit
      · rw [if_neg hmem]
        simp
    · intro hnd
      unfold recordGlobEdge
      by_cases hmem : (st.globImports b).any (fun it => it = (m, i)) = true
      · rw [if_pos hmem]
        exact hnd
      · rw [if_neg hmem]
        simp only [if_pos rfl]
        have hnotmem : (m, i) ∉ st.globImports b := by
          intro hin
          exact hmem (List.any_eq_true.mpr ⟨(m, i), hin, by simp⟩)
        simp [List.nodup_append, hnd, hnotmem]
  · intro st b imp batch st2 a gi x r v h hedge hmem hrt hnone
    have hbsome : (typesSlot st2 b x).isSome = true :=
      update_recursive_typesSlot_isSome 101 st b imp batch st2 x r v h hmem hrt
    have hasome : (typesSlot st2 a x).isSome = true :=
      update_recursive_closure_types batch x r v hmem hrt 101 st b imp st2 h
        b a gi hedge hnone hbsome
    exact ⟨hasome, hbsome, fun hanone huniq =>
      update_exact_types st b imp batch st2 x v h a hanone hasome huniq⟩
  · intro st b imp batch st2 a gi x r v h hedge hmem hrt hnone
    have hbsome : (valuesSlot st2 b x).isSome = true :=
      update_recursive_valuesSlot_isSome 101 st b imp batch st2 x r v h hmem hrt
    have hasome : (valuesSlot st2 a x).isSome = true :=
      update_recursive_closure_values batch x r v hmem hrt 101 st b imp st2 h
        b a gi hedge hnone hbsome
    exact ⟨hasome, hbsome, fun hanone huniq =>
      update_exact_values st b imp batch st2 x v h a hanone hasome huniq⟩
  · intro st b imp batch st2 a gi x r v h hedge hmem hrt hnone
    have hbsome : (macrosSlot st2 b x).isSome = true :=
      update_recursive_macrosSlot_isSome 101 st b imp batch st2 x r v h hmem hrt
    have hasome : (macrosSlot st2 a x).isSome = true :=
      update_recursive_closure_macros batch x r v hmem hrt 101 st b imp st2 h
        b a gi hedge hnone hbsome
    exact ⟨hasome, hbsome, fun hanone huniq =>
      update_exact_macros st b imp batch st2 x v h a hanone hasome huniq⟩
  · intro st b imp batch st2 x r v ms h hmem hrt hchain hbnone hall m hm
    have hbsome : (typesSlot st2 b x).isSome = true :=
      update_recursive_typesSlot_isSome 101 st b imp batch st2 x r v h hmem hrt
    have hmsome : (typesSlot st2 m x).isSome = true :=
      globChain_sets st st2 (fun s mod => typesSlot s mod x)
        (fun m2 a2 gi2 hedge2 hnone2 hsome2 =>
          update_recursive_closure_types batch x r v hmem hrt 101 st b imp st2 h
            m2 a2 gi2 hedge2 hnone2 hsome2)
        ms b hchain hbnone hbsome hall m hm
    exact ⟨hmsome, fun huniq =>
      update_exact_types st b imp batch st2 x v h m (hall m hm) hmsome huniq⟩
  · intro st b imp batch st2 x r v ms h hmem hrt hchain hbnone hall m hm
    have hbsome : (valuesSlot st2 b x).isSome = true :=
      update_recursive_valuesSlot_isSome 101 st b imp batch st2 x r v h hmem hrt
    have hmsome : (valuesSlot st2 m x).isSome = true :=
      globChain_sets st st2 (fun s mod => valuesSlot s mod x)
        (fun m2 a2 gi2 hedge2 hnone2 hsome2 =>
          update_recursive_closure_values batch x r v hmem hrt 101 st b imp st2 h
            m2 a2 gi2 hedge2 hnone2 hsome2)
        ms b hchain hbnone hbsome hall m hm
    exact ⟨hmsome, fun huniq =>
      update_exact_values st b imp batch st2 x v h m (hall m hm) hmsome huniq⟩
  · intro st b imp batch st2 x r v ms h hmem hrt hchain hbnone hall m hm
    have hbsome : (macrosSlot st2 b x).isSome = true :=
      update_recursive_macrosSlot_isSome 101 st b imp batch st2 x r v h hmem hrt
    have hmsome : (macrosSlot st2 m x).isSome = true :=
      globChain_sets st st2 (fun s mod => macrosSlot s mod x)
        (fun m2 a2 gi2 hedge2 hnone2 hsome2 =>
          update_recursive_closure_macros batch x r v hmem hrt 101 st b imp st2 h
            m2 a2 gi2 hedge2 hnone2 hsome2)
        ms b hchain hbnone hbsome hall m hm
    exact ⟨hmsome, fun huniq =>
      update_exact_macros st b imp batch st2 x v h m (hall m hm) hmsome huniq⟩

/-- Counterexample to claim C4: the claim says tripping the 100-depth glob
recursion guard "never panics the whole system", but `update_recursive`
reaches `panic!("infinite recursion in glob imports!")` (modelled as `none`)
on a concrete 102-module glob chain whose scopes are all empty: every level
changes, the replay recurses 101 levels deep, and the guard panics. -/
theorem claim_C4_counterexample :
    update chainState 0 none [(5, ⟨⟨some 3, none, none⟩, none⟩)] = none := rfl

/-- Claim C4 as amended: exceeding the 100-depth glob-propagation guard makes
`update_recursive` panic ("infinite recursion in glob imports!", the `none`
result), aborting the update, rather than logging and continuing with partial
results; when the replay cannot recurse (no glob edges recorded) the guard is
never reached and `update_recursive` completes normally. -/
theorem claim_C4_depth_guard_panics :
    (∀ (st : CollectorState) (m : Nat) (imp : Option Nat)
      (batch : List (Nat × Resolution)), update_recursive 0 st m imp batch = none) ∧
    (∀ (fuel : Nat) (st : CollectorState) (m : Nat) (imp : Option Nat)
      (batch : List (Nat × Resolution)), 0 < fuel →
      (∀ mod, st.globImports mod = []) →
      (update_recursive fuel st m imp batch).isSome = true) := by
  constructor
  · intro st m imp batch
    rfl
  · intro fuel st m imp batch hfuel hglob
    rcases fuel with _ | n
    · exact absurd hfuel (by simp)
    · simp only [update_recursive]
      by_cases hc : (applyBatch imp batch (st.modules m).items false).2 = true
      · rw [if_pos hc, hglob m]
        rfl
      · rw [if_neg hc]
        rfl

theorem collectLoop_spec {St : Type} (ri : St → St)
    (rm : St → St × ReachedFixedPoint) :
    ∀ (gas : Nat) (s : St),
      ∃ n, 1 ≤ n ∧ n ≤ gas + 1 ∧
        (collectLoop ri rm gas s).1 = (loopStep ri rm)^[n] s ∧
        ((collectLoop ri rm gas s).2 = true →
          n = gas + 1 ∧
          ∀ k < gas + 1, (rm (ri ((loopStep ri rm)^[k] s))).2 = ReachedFixedPoint.No) ∧
        ((∀ k < gas + 1, (rm (ri ((loopStep ri rm)^[k] s))).2 = ReachedFixedPoint.No) →
          collectLoop ri rm gas s = ((loopStep ri rm)^[gas + 1] s, true)) := by
  intro gas
  induction gas with
  | zero =>
    intro s
    refine ⟨1, le_refl 1, le_refl 1, ?_, ?_, ?_⟩ <;>
      rcases hrm : rm (ri s) with ⟨s2, fp⟩ <;> cases fp
    · simp [collectLoop, hrm, Function.iterate_one, loopStep]
    · simp [collectLoop, hrm, Function.iterate_one, loopStep]
    · simp [collectLoop, hrm]
    · intro _
      refine ⟨rfl, ?_⟩
      intro k hk
      interval_cases k
      simp [Function.iterate_zero, hrm]
    · intro hall
      have h0 := hall 0 (by norm_num)
      rw [Function.iterate_zero, id, hrm] at h0
      simp at h0
    · intro _
      simp [collectLoop, hrm, Function.iterate_one, loopStep]
  | succ g ih =>
    intro s
    rcases hrm : rm (ri s) with ⟨s2, fp⟩
    cases fp
    · refine ⟨1, le_refl 1, by omega, ?_, ?_, ?_⟩
      · simp [collectLoop, hrm, Function.iterate_one, loopStep]
      · intro hflag
        exfalso
        simp [collectLoop, hrm] at hflag
      · intro hall
        have h0 := hall 0 (by omega)
        rw [Function.iterate_zero, id, hrm] at h0
        simp at h0
    · have hs2 : s2 = loopStep ri rm s := by
        simp [loopStep, hrm]
      obtain ⟨n2, hn1, hn2, hiter, hflag, hall⟩ := ih s2
      have hres : collectLoop ri rm (g + 1) s = collectLoop ri rm g s2 := by
        simp [collectLoop, hrm]
      refine ⟨n2 + 1, by omega, by omega, ?_, ?_, ?_⟩
      · rw [hres, hiter, hs2, ← Function.iterate_succ_apply]
      · intro hflag2
        rw [hres] at hflag2
        obtain ⟨hn, hk⟩ := hflag hflag2
        refine ⟨by omega, ?_⟩
        intro k hklt
        rcases k with _ | j
        · rw [Function.iterate_zero, id, hrm]
        · rw [Function.iterate_succ_apply, ← hs2]
          exact hk j (by omega)
      · intro hall2
        rw [hres]
        have hall3 : ∀ k < g + 1,
            (rm (ri ((loopStep ri rm)^[k] s2))).2 = ReachedFixedPoint.No := by
          intro k hklt
          rw [hs2, ← Function.iterate_succ_apply]
          exact hall2 (k + 1) (by omega)
        rw [hall hall3, hs2, ← Function.iterate_succ_apply]

/-- Claim C2: the fixed-point loop of `DefCollector::collect` always
terminates: whatever the import pass `ri` and macro pass `rm` do, the loop
runs its body some `n ≤ 1000` times (each macro-progress iteration counts the
counter up) and returns the state those `n` body steps produce — a possibly
partial result, all remaining directives left as the passes left them.  The
error flag (the "name resolution is stuck" log) is raised exactly when the
1000-iteration cap ended the loop, which is what happens for a macro that
keeps expanding into an invocation of itself (every pass reports `No`). -/
theorem claim_C2_loop_terminates {St : Type} (ri : St → St)
    (rm : St → St × ReachedFixedPoint) (s : St) :
    ∃ n, 1 ≤ n ∧ n ≤ 1000 ∧
      (collectFixedPoint ri rm s).1 = (loopStep ri rm)^[n] s ∧
      ((collectFixedPoint ri rm s).2 = true →
        n = 1000 ∧
        ∀ k < 1000, (rm (ri ((loopStep ri rm)^[k] s))).2 = ReachedFixedPoint.No) ∧
      ((∀ k < 1000, (rm (ri ((loopStep ri rm)^[k] s))).2 = ReachedFixedPoint.No) →
        collectFixedPoint ri rm s = ((loopStep ri rm)^[1000] s, true)) := by
  have h := collectLoop_spec ri rm 999 s
  simp only [show (999 : Nat) + 1 = 1000 from rfl] at h
  exact h

/-- Claim C5: for a non-extern-crate import, `resolve_import` classifies the
path resolver's report exactly as the spec says: `Unresolved` when no fixed
point was reached; `Resolved` when the path landed in a different crate than
the one being collected, or when all three namespaces settled in-crate; and
`Indeterminate` otherwise. -/
theorem claim_C5_import_classification (selfKrate : Nat) (ep : Nat → Option Nat)
    (res : ResolvePathResult) (imp : ImportData)
    (hext : imp.isExternCrate = false) :
    (res.reachedFixedpoint = ReachedFixedPoint.No →
      resolve_import selfKrate ep res imp = PartialResolvedImport.Unresolved) ∧
    (∀ k, res.reachedFixedpoint = ReachedFixedPoint.Yes → res.krate = some k →
      k ≠ selfKrate →
      resolve_import selfKrate ep res imp =
        PartialResolvedImport.Resolved res.resolvedDef) ∧
    (res.reachedFixedpoint = ReachedFixedPoint.Yes →
      (res.krate = none ∨ res.krate = some selfKrate) →
      ((res.resolvedDef.types.isSome = true ∧ res.resolvedDef.values.isSome = true ∧
        res.resolvedDef.macros.isSome = true) →
        resolve_import selfKrate ep res imp =
          PartialResolvedImport.Resolved res.resolvedDef) ∧
      (¬(res.resolvedDef.types.isSome = true ∧ res.resolvedDef.values.isSome = true ∧
          res.resolvedDef.macros.isSome = true) →
        resolve_import selfKrate ep res imp =
          PartialResolvedImport.Indeterminate res.resolvedDef)) := by
  refine ⟨?_, ?_, ?_⟩
  · intro hno
    simp [resolve_import, hext, hno]
  · intro k hyes hk hkne
    simp [resolve_import, hext, hyes, hk, hkne]
  · intro hyes hkr
    have hmatch : (match res.krate with
        | some k => decide (k ≠ selfKrate)
        | none => false) = false := by
      rcases hkr with hk | hk <;> simp [hk]
    constructor
    · intro hall
      simp [resolve_import, hext, hyes, hmatch, hall.1, hall.2.1, hall.2.2]
    · intro hnall
      have hcond : ¬((res.resolvedDef.types.isSome &&
          res.resolvedDef.values.isSome && res.resolvedDef.macros.isSome) = true) := by
        simpa [Bool.and_eq_true, and_assoc] using hnall
      rcases hkr with hk | hk <;> simp [resolve_import, hext, hyes, hk, hcond]

/-- Witness for C5 at concrete inputs: a report that reached the fixed point
in-crate with nothing settled is classified `Indeterminate`. -/
theorem claim_C5_import_classification_witness :
    resolve_import 0 (fun _ => none)
      ⟨PerNs.noneNs, ReachedFixedPoint.Yes, none⟩ ⟨4, false⟩ =
      PartialResolvedImport.Indeterminate PerNs.noneNs :=
  ((claim_C5_import_classification 0 (fun _ => none)
      ⟨PerNs.noneNs, ReachedFixedPoint.Yes, none⟩ ⟨4, false⟩ rfl).2.2 rfl
    (Or.inl rfl)).2 (by simp [PerNs.noneNs])

/-- Claim C6: `define_legacy_macro` writes into the module's legacy textual
macro scope unconditionally: the new binding always lands (also on
redefinition, where the prior binding is replaced — last write wins), other
entries are untouched, and this contrasts with the ordinary scope merge,
whose macro-namespace slot is never overwritten once set. -/
theorem claim_C6_legacy_shadow_always :
    (∀ (st : CollectorState) (m name mac : Nat),
      ((defineLegacyMacro st m name mac).modules m).legacyMacros name = some mac) ∧
    (∀ (st : CollectorState) (m name mac mac2 : Nat),
      ((defineLegacyMacro (defineLegacyMacro st m name mac) m name mac2).modules
        m).legacyMacros name = some mac2) ∧
    (∀ (st : CollectorState) (m name mac m2 n2 : Nat), m2 ≠ m ∨ n2 ≠ name →
      ((defineLegacyMacro st m name mac).modules m2).legacyMacros n2 =
        (st.modules m2).legacyMacros n2) ∧
    (∀ (imp : Option Nat) (e r : Resolution) (v : Nat), e.def_.macros = some v →
      (mergeEntry imp e r).1.def_.macros = some v) := by
  refine ⟨?_, ?_, ?_, ?_⟩
  · intro st m name mac
    simp [defineLegacyMacro]
  · intro st m name mac mac2
    simp [defineLegacyMacro]
  · intro st m name mac m2 n2 hne
    rcases hne with hne | hne
    · simp [defineLegacyMacro, hne]
    · by_cases hm : m2 = m <;> simp [defineLegacyMacro, hm, hne]
  · intro imp e r v hv
    rw [mergeEntry_def_macros]
    simp [hv]

theorem defineLegacyMacro_macrosSlot (st : CollectorState) (m name mac mod n : Nat) :
    macrosSlot (defineLegacyMacro st m name mac) mod n = macrosSlot st mod n := by
  unfold macrosSlot
  rw [defineLegacyMacro_items]

/-- Claim C7: a `macro_rules!` definition without `#[macro_export]` touches
only the defining module's legacy textual scope, while an exported one is in
addition written through `update` into the crate root module's scope in the
macro namespace, making it resolvable from the crate root: afterwards the
root's macro slot for that name is occupied, and equals exactly this macro
whenever the root had no earlier binding for the name. -/
theorem claim_C7_macro_export_visibility :
    (∀ (st : CollectorState) (m name mac : Nat),
      defineMacro st m name mac false = some (defineLegacyMacro st m name mac)) ∧
    (∀ (st : CollectorState) (m name mac : Nat) (st2 : CollectorState),
      defineMacro st m name mac true = some st2 →
      (st2.modules m).legacyMacros name = some mac ∧
      (macrosSlot st2 st.root name).isSome = true ∧
      (macrosSlot st st.root name = none →
        macrosSlot st2 st.root name = some mac)) := by
  constructor
  · intro st m name mac
    rfl
  · intro st m name mac st2 h
    have hupd : update (defineLegacyMacro st m name mac) st.root none
        [(name, ⟨PerNs.macrosOnly mac, none⟩)] = some st2 := h
    have hmem : (name, (⟨PerNs.macrosOnly mac, none⟩ : Resolution)) ∈
        [(name, (⟨PerNs.macrosOnly mac, none⟩ : Resolution))] :=
      List.mem_singleton_self _
    have hrm : (⟨PerNs.macrosOnly mac, none⟩ : Resolution).def_.macros = some mac := rfl
    refine ⟨?_, ?_, ?_⟩
    · rw [update_recursive_legacy 101 _ _ _ _ _ hupd m name]
      exact defineLegacyMacro_same st m name mac
    · exact update_recursive_macrosSlot_isSome 101 _ _ none _ st2 name _ mac hupd
        hmem hrm
    · intro hnone
      have hnone1 : macrosSlot (defineLegacyMacro st m name mac) st.root name = none := by
        rw [defineLegacyMacro_macrosSlot]
        exact hnone
      have hsome := update_recursive_macrosSlot_isSome 101 _ _ none _ st2 name _ mac
        hupd hmem hrm
      obtain ⟨w, hw⟩ := Option.isSome_iff_exists.mp hsome
      obtain ⟨_, _, hmor⟩ := update_recursive_origin 101 _ _ none _ st2 hupd st.root name
      rcases hmor w hw with h1 | ⟨r2, hr2, hr2m⟩
      · rw [hnone1] at h1
        exact absurd h1 (by simp)
      · have : r2 = ⟨PerNs.macrosOnly mac, none⟩ := by
          have := List.mem_singleton.mp hr2
          exact (Prod.mk.injEq .. ▸ this).2
        rw [this] at hr2m
        rw [hw, hr2m.symm.trans hrm]

/-- Witness for C7 at a concrete input: exporting macro 7 as name 5 from
module 2 of the empty state writes it into root module 0's macro slot. -/
theorem claim_C7_macro_export_visibility_witness :
    ∃ st2, defineMacro stEmpty 2 5 7 true = some st2 ∧
      macrosSlot st2 0 5 = some 7 ∧ (st2.modules 2).legacyMacros 5 = some 7 := by
  have hs : (defineMacro stEmpty 2 5 7 true).isSome = true := rfl
  obtain ⟨st2, h2⟩ := Option.isSome_iff_exists.mp hs
  obtain ⟨hleg, _, hval⟩ := claim_C7_macro_export_visibility.2 stEmpty 2 5 7 st2 h2
  exact ⟨st2, h2, hval rfl, hleg⟩

theorem seedExternPrelude_not_mem (depRoot : Nat → Nat)
    (depPrelude : Nat → Option (Nat × Nat)) :
    ∀ (deps : List Dependency) (ep : Nat → Option (Nat × Nat))
      (pre : Option (Nat × Nat)) (name : Nat),
      name ∉ deps.map Dependency.name →
      (seedExternPrelude depRoot depPrelude deps ep pre).1 name = ep name := by
  intro deps
  induction deps with
  | nil => intro ep pre name _; rfl
  | cons d rest ih =>
    intro ep pre name h
    simp only [List.map_cons, List.mem_cons, not_or] at h
    obtain ⟨h1, h2⟩ := h
    simp only [seedExternPrelude]
    rw [ih _ _ _ h2]
    simp [h1]

/-- Claim C8: seeding the extern prelude at the start of `collect_defs` binds
every dependency's name to that dependency crate's root module (when the
dependency names are distinct, as the crate graph provides them), and the
crate-wide prelude ends up as the prelude of the last dependency in
processing order that has one — each prelude-bearing dependency overwrites
any previously seen prelude. -/
theorem claim_C8_extern_prelude_seeding (depRoot : Nat → Nat)
    (depPrelude : Nat → Option (Nat × Nat)) (deps : List Dependency)
    (ep : Nat → Option (Nat × Nat)) (pre : Option (Nat × Nat)) :
    ((deps.map Dependency.name).Nodup →
      ∀ dep ∈ deps, (seedExternPrelude depRoot depPrelude deps ep pre).1 dep.name =
        some (dep.crateId, depRoot dep.crateId)) ∧
    ((seedExternPrelude depRoot depPrelude deps ep pre).2 =
      match (deps.filter fun d => (depPrelude d.crateId).isSome).getLast? with
      | some d => depPrelude d.crateId
      | none => pre) := by
  constructor
  · induction deps generalizing ep pre with
    | nil => intro _ dep hdep; simp at hdep
    | cons d rest ih =>
      intro hnd dep hdep
      simp only [List.map_cons, List.nodup_cons] at hnd
      obtain ⟨hd1, hd2⟩ := hnd
      rcases List.mem_cons.mp hdep with rfl | hdep2
      · simp only [seedExternPrelude]
        rw [seedExternPrelude_not_mem depRoot depPrelude rest _ _ _ hd1]
        simp
      · simp only [seedExternPrelude]
        exact ih _ _ hd2 dep hdep2
  · induction deps generalizing ep pre with
    | nil => rfl
    | cons d rest ih =>
      simp only [seedExternPrelude]
      rw [ih]
      by_cases hp : (depPrelude d.crateId).isSome = true
      · rw [List.filter_cons_of_pos (p := fun d2 : Dependency => (depPrelude d2.crateId).isSome) hp]
        rcases hfr : rest.filter (fun d2 => (depPrelude d2.crateId).isSome) with _ | ⟨y, ys⟩
        · rw [hfr]
          simp [hp]
        · rw [hfr, List.getLast?_cons_cons]
          rcases hgl : (y :: ys).getLast? with _ | z
          · exact absurd (List.getLast?_eq_none_iff.mp hgl) (by simp)
          · simp [hgl]
      · rw [List.filter_cons_of_neg (p := fun d2 : Dependency => (depPrelude d2.crateId).isSome) hp]
        simp [hp]

/-- Claim C9: a `Mark` checkpoint discarded without `exit` panics ("dropped
mark") unless a panic is already in flight, and `exit` restores the
expander's previous file identity and hygiene table from the checkpoint:
whenever `enter_expand` succeeds from an expander whose hygiene table is the
one derived from its current file (as `Expander::new`, `enter_expand` and
`exit` all guarantee), the saved mark holds the previous file and `exit`
brings the expander back to exactly its previous state. -/
theorem claim_C9_mark_discipline :
    (∀ mark : Mark, dropMark false mark = none) ∧
    (∀ mark : Mark, dropMark true mark = some ()) ∧
    (∀ (e : Expander) (f : Nat) (mark : Mark) (e2 : Expander),
      e.hygiene = Hygiene.fromFile e.currentFileId →
      enter_expand e (some f) = some (mark, e2) →
      mark.fileId = e.currentFileId ∧ Expander.exit e2 mark = e) := by
  refine ⟨fun mark => rfl, fun mark => rfl, ?_⟩
  intro e f mark e2 hinv h
  obtain ⟨cf, hy⟩ := e
  simp only at hinv
  subst hinv
  simp only [enter_expand, Option.some.injEq, Prod.mk.injEq] at h
  obtain ⟨hm, _⟩ := h
  subst hm
  exact ⟨rfl, rfl⟩

theorem resolveImportsPass_unresolved_mem
    (resolveF : ImportDirective → PartialResolvedImport) :
    ∀ (l : List ImportDirective) (d : ImportDirective),
      d ∈ (resolveImportsPass resolveF l).1 →
      ∃ d0 ∈ l, resolveF d0 = PartialResolvedImport.Unresolved ∧
        d = { d0 with status := PartialResolvedImport.Unresolved } := by
  intro l
  induction l with
  | nil => intro d h; simp [resolveImportsPass] at h
  | cons d0 rest ih =>
    intro d h
    simp only [resolveImportsPass] at h
    rcases hst : resolveF d0 with _ | ns | ns
    · rw [hst] at h
      simp only [List.mem_cons] at h
      rcases h with heq | htl
      · exact ⟨d0, List.mem_cons_self _ _, hst, heq⟩
      · obtain ⟨d1, hd1, hres, heq⟩ := ih d htl
        exact ⟨d1, List.mem_cons_of_mem _ hd1, hres, heq⟩
    · rw [hst] at h
      obtain ⟨d1, hd1, hres, heq⟩ := ih d h
      exact ⟨d1, List.mem_cons_of_mem _ hd1, hres, heq⟩
    · rw [hst] at h
      obtain ⟨d1, hd1, hres, heq⟩ := ih d h
      exact ⟨d1, List.mem_cons_of_mem _ hd1, hres, heq⟩

theorem resolveImportsPass_resolved_mem
    (resolveF : ImportDirective → PartialResolvedImport) :
    ∀ (l : List ImportDirective) (d0 : ImportDirective) (ns : PerNs),
      d0 ∈ l → resolveF d0 = PartialResolvedImport.Resolved ns →
      { d0 with status := PartialResolvedImport.Resolved ns } ∈
        (resolveImportsPass resolveF l).2 := by
  intro l
  induction l with
  | nil => intro d0 ns h; simp at h
  | cons d1 rest ih =>
    intro d0 ns hmem hres
    simp only [resolveImportsPass]
    rcases List.mem_cons.mp hmem with rfl | htl
    · rw [hres]
      simp
    · rcases hst : resolveF d1 with _ | ns2 | ns2
      · exact ih d0 ns htl hres
      · exact List.mem_cons_of_mem _ (ih d0 ns htl hres)
      · exact List.mem_cons_of_mem _ (ih d0 ns htl hres)

theorem resolveImportsGo_unresolved
    (resolveF : ImportDirective → PartialResolvedImport)
    (hext : ∀ d : ImportDirective, d.importData.isExternCrate = true →
      ∃ ns, resolveF d = PartialResolvedImport.Resolved ns) :
    ∀ (nPrev : Nat) (u r : List ImportDirective), u.length < nPrev →
      ∀ d ∈ (resolveImportsGo resolveF nPrev u r).1,
        d.importData.isExternCrate = false := by
  intro nPrev
  induction nPrev using Nat.strong_induction_on with
  | _ nPrev ih =>
    intro u r hlt d hd
    rw [resolveImportsGo, dif_pos hlt] at hd
    by_cases h2 : (resolveImportsPass resolveF u).1.length < u.length
    · exact ih u.length hlt _ _ h2 d hd
    · rw [resolveImportsGo, dif_neg h2] at hd
      obtain ⟨d0, _, hres, rfl⟩ := resolveImportsPass_unresolved_mem resolveF u d hd
      by_cases hex : d0.importData.isExternCrate = true
      · obtain ⟨ns, hns⟩ := hext d0 hex
        rw [hns] at hres
        exact absurd hres (by simp)
      · simpa using hex

theorem resolveImportsGo_resolved_mono
    (resolveF : ImportDirective → PartialResolvedImport) :
    ∀ (nPrev : Nat) (u r : List ImportDirective) (x : ImportDirective), x ∈ r →
      x ∈ (resolveImportsGo resolveF nPrev u r).2 := by
  intro nPrev
  induction nPrev using Nat.strong_induction_on with
  | _ nPrev ih =>
    intro u r x hx
    rw [resolveImportsGo]
    by_cases hlt : u.length < nPrev
    · rw [dif_pos hlt]
      exact ih u.length hlt _ _ x (List.mem_append_left _ hx)
    · rw [dif_neg hlt]
      exact hx

/-- Claim C10: an extern-crate import is resolved by a direct extern-prelude
lookup and is always classified `Resolved` — on a lookup miss the `Resolved`
result carries the empty resolution; consequently `resolve_imports` moves
every extern-crate directive to the resolved list (never back to the
unresolved queue, so it is never re-attempted in later passes), and the late
re-check reopens only `Indeterminate` directives, never `Resolved` ones. -/
theorem claim_C10_extern_crate_always_resolved :
    (∀ (selfKrate : Nat) (ep : Nat → Option Nat) (res : ResolvePathResult)
      (imp : ImportData), imp.isExternCrate = true →
      resolve_import selfKrate ep res imp =
        PartialResolvedImport.Resolved
          (resolve_name_in_extern_prelude ep imp.pathIdent)) ∧
    (∀ (ep : Nat → Option Nat) (name : Nat), ep name = none →
      resolve_name_in_extern_prelude ep name = PerNs.noneNs) ∧
    (∀ (resolveF : ImportDirective → PartialResolvedImport),
      (∀ d : ImportDirective, d.importData.isExternCrate = true →
        ∃ ns, resolveF d = PartialResolvedImport.Resolved ns) →
      ∀ (unresolved resolved : List ImportDirective),
        (∀ d ∈ (resolve_imports resolveF unresolved resolved).1,
          d.importData.isExternCrate = false) ∧
        (∀ d ∈ unresolved, d.importData.isExternCrate = true →
          ∃ ns, { d with status := PartialResolvedImport.Resolved ns } ∈
            (resolve_imports resolveF unresolved resolved).2)) ∧
    (∀ (l : List ImportDirective) (d : ImportDirective),
      d ∈ reopenIndeterminate l →
      ∃ d2 ∈ l, ∃ ns, d2.status = PartialResolvedImport.Indeterminate ns ∧
        d = { d2 with status := PartialResolvedImport.Unresolved }) := by
  refine ⟨?_, ?_, ?_, ?_⟩
  · intro selfKrate ep res imp hex
    simp [resolve_import, hex]
  · intro ep name h
    simp [resolve_name_in_extern_prelude, h]
  · intro resolveF hext unresolved resolved
    constructor
    · intro d hd
      exact resolveImportsGo_unresolved resolveF hext (unresolved.length + 1)
        unresolved resolved (Nat.lt_succ_self _) d hd
    · intro d hd hex
      obtain ⟨ns, hns⟩ := hext d hex
      refine ⟨ns, ?_⟩
      show _ ∈ (resolveImportsGo resolveF (unresolved.length + 1) unresolved resolved).2
      rw [resolveImportsGo, dif_pos (Nat.lt_succ_self _)]
      exact resolveImportsGo_resolved_mono resolveF _ _ _ _
        (List.mem_append_right _
          (resolveImportsPass_resolved_mem resolveF unresolved d ns hd hns))
  · intro l d hd
    simp only [reopenIndeterminate] at hd
    obtain ⟨d2, hd2, hf⟩ := List.mem_filterMap.mp hd
    rcases hst : d2.status with _ | ns | ns <;> rw [hst] at hf
    · exact absurd hf (by simp)
    · simp only [Option.some.injEq] at hf
      exact ⟨d2, hd2, ns, hst, hf.symm⟩
    · exact absurd hf (by simp)

end RaNameRes
